import Mathlib

/-!
Verification development for the hag-toolkit player valuation and
recommendation engine.

The JavaScript sources are shallowly embedded: JS numbers are modelled as
rationals, CSV cells as a three-way `Cell` type (a finite number, a
non-numeric string, or a null/undefined/absent value), and JS objects as
structures (for the fixed, canonicalized fields produced by the loaders)
plus association lists (for dynamically-keyed stat columns).  After the
`toNumberMaybe` ingestion step every numeric cell text has already been
converted to a number, so string cells are modelled as non-numeric.
-/

/-- A CSV/JS cell value: a finite number, a (non-numeric) string, or
null/undefined/absent.  JS `null` and `undefined` behave identically in
every code path modelled here (`??`, `!= null`), so both map to `cnull`. -/
inductive Cell where
  | cnum (q : ℚ)
  | cstr (s : String)
  | cnull
deriving DecidableEq, Repr

/-- Model of `num(v, fallback)` from js/auction-data.js (v3):
`if (v == null || v === "") return fallback; const n = Number(v);
return Number.isFinite(n) ? n : fallback;`. -/
def numD (c : Cell) (d : ℚ) : ℚ :=
  match c with
  | .cnum q => q
  | _ => d

/-- `num(v, null)`: the optional-number reading of a cell. -/
def numOpt (c : Cell) : Option ℚ :=
  match c with
  | .cnum q => some q
  | _ => none

/-- Model of `String(v ?? dflt)` applied to a cell. -/
def jsString (c : Cell) (dflt : String) : String :=
  match c with
  | .cnull => dflt
  | .cstr s => s
  | .cnum q => toString q

/-- `clamp(n, lo, hi) = Math.max(lo, Math.min(hi, n))`. -/
def clamp (n lo hi : ℚ) : ℚ := max lo (min hi n)

/-! ### Character-level model of the Unicode operations

`normalizeName` uses `String.normalize("NFD")`, a combining-mark strip,
period removal, whitespace collapsing, `toLowerCase` and `trim`.  NFD is
modelled as a per-character decomposition table covering the Latin
precomposed letters relevant to player names (the default being that a
character decomposes to itself); case mapping is modelled as a
per-character table with identity default. -/

/-- The combining diacritical marks block U+0300..U+036F, exactly the
range stripped by `normalizeName` and tested by `hasDiacritics`. -/
def isCombining (c : Char) : Bool :=
  0x300 ≤ c.toNat && c.toNat ≤ 0x36F

/-- The JS `\s` / `trim` whitespace set. -/
def isWS (c : Char) : Bool :=
  let n := c.toNat
  n == 9 || n == 10 || n == 11 || n == 12 || n == 13 || n == 32 ||
  n == 160 || n == 0x1680 || (0x2000 ≤ n && n ≤ 0x200A) ||
  n == 0x2028 || n == 0x2029 || n == 0x202F || n == 0x205F ||
  n == 0x3000 || n == 0xFEFF

/-- Canonical (NFD) decompositions for precomposed Latin letters. -/
def nfdTable : List (Char × List Char) :=
  [ ('á', ['a', '́']), ('é', ['e', '́']), ('í', ['i', '́']),
    ('ó', ['o', '́']), ('ú', ['u', '́']),
    ('Á', ['A', '́']), ('É', ['E', '́']), ('Í', ['I', '́']),
    ('Ó', ['O', '́']), ('Ú', ['U', '́']),
    ('à', ['a', '̀']), ('è', ['e', '̀']), ('ì', ['i', '̀']),
    ('ò', ['o', '̀']), ('ù', ['u', '̀']),
    ('À', ['A', '̀']), ('È', ['E', '̀']), ('Ì', ['I', '̀']),
    ('Ò', ['O', '̀']), ('Ù', ['U', '̀']),
    ('â', ['a', '̂']), ('ê', ['e', '̂']), ('î', ['i', '̂']),
    ('ô', ['o', '̂']), ('û', ['u', '̂']),
    ('Â', ['A', '̂']), ('Ê', ['E', '̂']), ('Î', ['I', '̂']),
    ('Ô', ['O', '̂']), ('Û', ['U', '̂']),
    ('ä', ['a', '̈']), ('ë', ['e', '̈']), ('ï', ['i', '̈']),
    ('ö', ['o', '̈']), ('ü', ['u', '̈']), ('ÿ', ['y', '̈']),
    ('Ä', ['A', '̈']), ('Ë', ['E', '̈']), ('Ï', ['I', '̈']),
    ('Ö', ['O', '̈']), ('Ü', ['U', '̈']),
    ('ã', ['a', '̃']), ('ñ', ['n', '̃']), ('õ', ['o', '̃']),
    ('Ã', ['A', '̃']), ('Ñ', ['N', '̃']), ('Õ', ['O', '̃']),
    ('ç', ['c', '̧']), ('Ç', ['C', '̧']) ]

/-- Per-character NFD decomposition (identity outside the table). -/
def nfdChar (c : Char) : List Char :=
  (nfdTable.lookup c).getD [c]

/-- Lower-case mappings (identity outside the table). -/
def lowerTable : List (Char × Char) :=
  [ ('A', 'a'), ('B', 'b'), ('C', 'c'), ('D', 'd'), ('E', 'e'), ('F', 'f'),
    ('G', 'g'), ('H', 'h'), ('I', 'i'), ('J', 'j'), ('K', 'k'), ('L', 'l'),
    ('M', 'm'), ('N', 'n'), ('O', 'o'), ('P', 'p'), ('Q', 'q'), ('R', 'r'),
    ('S', 's'), ('T', 't'), ('U', 'u'), ('V', 'v'), ('W', 'w'), ('X', 'x'),
    ('Y', 'y'), ('Z', 'z') ]

def lowerChar (c : Char) : Char :=
  (lowerTable.lookup c).getD c

/-- Upper-case mappings (identity outside the table). -/
def upperTable : List (Char × Char) :=
  [ ('a', 'A'), ('b', 'B'), ('c', 'C'), ('d', 'D'), ('e', 'E'), ('f', 'F'),
    ('g', 'G'), ('h', 'H'), ('i', 'I'), ('j', 'J'), ('k', 'K'), ('l', 'L'),
    ('m', 'M'), ('n', 'N'), ('o', 'O'), ('p', 'P'), ('q', 'Q'), ('r', 'R'),
    ('s', 'S'), ('t', 'T'), ('u', 'U'), ('v', 'V'), ('w', 'W'), ('x', 'X'),
    ('y', 'Y'), ('z', 'Z') ]

def upperChar (c : Char) : Char :=
  (upperTable.lookup c).getD c

/-- `.normalize("NFD")` on a character list. -/
def nfdL (l : List Char) : List Char := l.flatMap nfdChar

/-- `.replace(/[̀-ͯ]/g, "")`. -/
def stripMarks (l : List Char) : List Char := l.filter (fun c => !isCombining c)

/-- `.replace(/\./g, "")`. -/
def stripDots (l : List Char) : List Char := l.filter (fun c => !(c == '.'))

/-- `.replace(/\s+/g, " ")`: the boolean tracks whether the previous
character belonged to a whitespace run already emitted as a space. -/
def collapseAux : Bool → List Char → List Char
  | _, [] => []
  | prevWS, c :: rest =>
    if isWS c then
      if prevWS then collapseAux true rest
      else ' ' :: collapseAux true rest
    else c :: collapseAux false rest

def collapseWS (l : List Char) : List Char := collapseAux false l

/-- `.toLowerCase()`. -/
def lowerL (l : List Char) : List Char := l.map lowerChar

/-- Drop trailing whitespace (the tail half of `.trim()`). -/
def dropTrailWS : List Char → List Char
  | [] => []
  | c :: t =>
    let t' := dropTrailWS t
    if t'.isEmpty && isWS c then [] else c :: t'

/-- `.trim()`. -/
def trimL (l : List Char) : List Char := dropTrailWS (l.dropWhile isWS)

/-- The full `normalizeName` pipeline from js/player-key.js on a
character list: NFD, strip combining marks, drop periods, collapse
whitespace runs to single spaces, lowercase, trim. -/
def normalizeChars (l : List Char) : List Char :=
  trimL (lowerL (collapseWS (stripDots (stripMarks (nfdL l)))))

/-- `normalizeName` from js/player-key.js. -/
def normalizeName (s : String) : String := ⟨normalizeChars s.data⟩

/-- `hasDiacritics` from js/auction-data.js and js/projections-data.js:
`/[̀-ͯ]/.test(String(s || "").normalize("NFD"))`. -/
def hasDiacritics (s : String) : Bool :=
  (nfdL s.data).any isCombining

/-- JS `.trim()` on a string. -/
def jsTrim (s : String) : String := ⟨trimL s.data⟩

/-- JS `.toLowerCase()` on a string. -/
def jsToLower (s : String) : String := ⟨s.data.map lowerChar⟩

/-- JS `.toUpperCase()` on a string. -/
def jsToUpper (s : String) : String := ⟨s.data.map upperChar⟩

/-- `s.startsWith(pre)`, written over the character lists so that it
reduces in the kernel. -/
def strStartsWith (s pre : String) : Bool := pre.data.isPrefixOf s.data

/-- A character that every stage of the pipeline leaves alone (except
possibly the whitespace stages). -/
def stableChar (c : Char) : Bool :=
  (nfdChar c == [c]) && !isCombining c && !(c == '.') && (lowerChar c == c)

/-- No two adjacent whitespace characters. -/
def noTwoWS : List Char → Bool
  | [] => true
  | [_] => true
  | a :: b :: t => (!(isWS a && isWS b)) && noTwoWS (b :: t)

/-! ### js/player-key.js : canonical player keys -/

namespace PlayerKey

/-- The identity-bearing fields of a source row, as read by
`getPlayerKey` (js/player-key.js). -/
structure KeyInput where
  mlbam_id : Cell := .cnull
  player_id : Cell := .cnull
  id : Cell := .cnull
  PlayerID : Cell := .cnull
  MLBAM_ID : Cell := .cnull
  /-- the JS field `type` -/
  typeL : Cell := .cnull
  /-- the JS field `Type` (a Lean keyword, hence the suffix) -/
  typeU : Cell := .cnull
  /-- the JS field `Name` -/
  nameU : Cell := .cnull
  /-- the JS field `name` -/
  nameL : Cell := .cnull
  /-- the JS field `player` -/
  playerL : Cell := .cnull
  /-- the JS field `Player` -/
  playerU : Cell := .cnull
deriving DecidableEq, Repr

/-- The possible arguments of `getPlayerKey`: `null`/`undefined`, a raw
name string, or an object. -/
inductive KeyArg where
  | nullArg
  | strArg (s : String)
  | objArg (i : KeyInput)
deriving DecidableEq, Repr

/-- JS `a ?? b` on cells. -/
def coalesce (a b : Cell) : Cell :=
  match a with
  | .cnull => b
  | c => c

/-- `input.mlbam_id ?? input.player_id ?? input.id ?? input.PlayerID ??
input.MLBAM_ID ?? null`. -/
def idCell (i : KeyInput) : Cell :=
  coalesce i.mlbam_id (coalesce i.player_id (coalesce i.id
    (coalesce i.PlayerID i.MLBAM_ID)))

/-- The explicit identifier when `id != null && String(id).trim() !== ""`. -/
def idResolved (i : KeyInput) : Option String :=
  match idCell i with
  | .cnull => none
  | c => if jsTrim (jsString c "") = "" then none else some (jsTrim (jsString c ""))

/-- `String(input.type ?? input.Type ?? "unk").trim().toLowerCase()`
resolved to exactly "hit", "pit" or "unk". -/
def typeResolved (i : KeyInput) : String :=
  let typeRaw := jsToLower (jsTrim (jsString (coalesce i.typeL i.typeU) "unk"))
  if typeRaw = "pit" ∨ typeRaw = "pitch" ∨ typeRaw = "pitcher" then "pit"
  else if typeRaw = "hit" ∨ typeRaw = "hitter" then "hit"
  else "unk"

/-- `String(input.Name ?? input.name ?? input.player ?? input.Player ?? "").trim()`. -/
def nameResolved (i : KeyInput) : String :=
  jsTrim (jsString (coalesce i.nameU (coalesce i.nameL (coalesce i.playerL i.playerU))) "")

/-- `getPlayerKey` from js/player-key.js. -/
def getPlayerKey (input : KeyArg) : String :=
  match input with
  | .nullArg => ""
  | .strArg s => "unk|" ++ normalizeName s
  | .objArg i =>
    match idResolved i with
    | some idv => "id|" ++ idv
    | none => typeResolved i ++ "|" ++ normalizeName (nameResolved i)

end PlayerKey

/-! ### The canonicalized player row

One structure serves the auction loader (js/auction-data.js), the
projections loader (js/projections-data.js) and the recommendation
scorer (js/recommended-targets.js): after ingestion all of them
guarantee that `player_key`, `Name`, `type`, `POS` and `Team` are
strings, while the anchor columns and the per-category stat columns stay
raw cells.  Dynamically-keyed stat columns live in the `stats`
association list (looked up exactly the way the JS code reads
`player[k]`). -/

structure Player where
  player_key : String := ""
  Name : String := ""
  type : String := ""
  POS : String := ""
  Team : String := ""
  draftable : Cell := .cnull
  auction_value_26 : Cell := .cnull
  market_estimate : Cell := .cnull
  auction_price_25_imputed : Cell := .cnull
  auction_price_25 : Cell := .cnull
  stats : List (String × Cell) := []
deriving DecidableEq, Repr

/-- `player[k]` for a dynamically-keyed stat column (absent keys read as
`undefined`). -/
def Player.cellAt (p : Player) (k : String) : Cell :=
  (p.stats.lookup k).getD .cnull

/-- Overwrite (or add) the stat column `k`.  Mirrors `obj[k] = v`. -/
def Player.setStat (p : Player) (k : String) (c : Cell) : Player :=
  { p with stats := (k, c) :: p.stats.filter (fun e => !(e.1 == k)) }

/-- Remove the stat column `k` entirely. -/
def Player.dropStat (p : Player) (k : String) : Player :=
  { p with stats := p.stats.filter (fun e => !(e.1 == k)) }

namespace AuctionData

/-- `normType` from js/auction-data.js (v3). -/
def normType (t : String) : String :=
  let s := jsToLower (jsTrim t)
  if s = "pit" ∨ s = "pitcher" then "pit" else "hit"

def ALL_CATS : List String :=
  ["OPS", "TB", "HR", "RBI", "R", "AVG", "SB", "IP", "QS", "K", "HLD", "SV", "ERA", "WHIP"]

def HIT_CATS : List String :=
  ["OPS", "TB", "HR", "RBI", "R", "AVG", "SB"]

def PIT_CATS : List String :=
  ["IP", "QS", "K", "HLD", "SV", "ERA", "WHIP"]

/-- `DEFAULT_WEIGHTS` from js/storage.js: every engine category maps to 1.0. -/
def DEFAULT_WEIGHTS : List (String × ℚ) :=
  [("AVG", 1), ("OPS", 1), ("TB", 1), ("HR", 1), ("RBI", 1), ("R", 1), ("SB", 1),
   ("ERA", 1), ("WHIP", 1), ("IP", 1), ("QS", 1), ("K", 1), ("SV", 1), ("HLD", 1)]

/-- The candidate column names probed by `getCatStat` for a category. -/
def catCandidates (cat : String) : List String :=
  [cat ++ "__w", jsToLower cat ++ "__w", cat, jsToLower cat, jsToUpper cat,
   cat ++ "_26", jsToLower cat ++ "_26"]

/-- The candidate-probing loop of `getCatStat`; the
`v != null && v !== "" && Number.isFinite(Number(v))` probe on one cell
is the same check as `num(v, null)`, i.e. `numOpt`. -/
def probeCols (p : Player) : List String → Option ℚ
  | [] => none
  | k :: ks =>
    match numOpt (p.cellAt k) with
    | some n => some n
    | none => probeCols p ks

/-- `getCatStat` from js/auction-data.js (v3): the first candidate column
holding a finite number, else null. -/
def getCatStat (player : Option Player) (cat : String) : Option ℚ :=
  match player with
  | none => none
  | some p => probeCols p (catCandidates cat)

/-- `detectCatStats`: at least two category columns present. -/
def detectCatStats (samplePlayer : Option Player) : Bool :=
  match samplePlayer with
  | none => false
  | some p =>
    let found := ALL_CATS.countP (fun cat => (getCatStat (some p) cat).isSome)
    decide (2 ≤ found)

/-- `player?.f` for the fixed anchor fields, with `undefined` for a
missing player. -/
def fieldOf (player : Option Player) (f : Player → Cell) : Cell :=
  match player with
  | none => .cnull
  | some p => f p

/-- `getVal26`: `num(player?.auction_value_26, null)` clamped at 0. -/
def getVal26 (player : Option Player) : Option ℚ :=
  match numOpt (fieldOf player Player.auction_value_26) with
  | none => none
  | some v => some (max 0 v)

/-- `getMarketEstimate`: `num(player?.market_estimate, null)` clamped at 0. -/
def getMarketEstimate (player : Option Player) : Option ℚ :=
  match numOpt (fieldOf player Player.market_estimate) with
  | none => none
  | some v => some (max 0 v)

/-- `getShadow25`: imputed 2025 price, else actual, clamped at 0. -/
def getShadow25 (player : Option Player) : Option ℚ :=
  match numOpt (fieldOf player Player.auction_price_25_imputed) with
  | some imp => some (max 0 imp)
  | none =>
    match numOpt (fieldOf player Player.auction_price_25) with
    | none => none
    | some a25 => some (max 0 a25)

/-- `getBaseVal26`: Val (2026) with Shadow (2025) fallback, else 0. -/
def getBaseVal26 (player : Option Player) : ℚ :=
  match getVal26 player with
  | some v => v
  | none =>
    match getShadow25 player with
    | some sh => sh
    | none => 0

/-- `getBaselineVal`: mode "market" prefers a positive market estimate
and otherwise falls back to the projection baseline. -/
def getBaselineVal (player : Option Player) (valueMode : String) : ℚ :=
  let mode := jsToLower (if valueMode = "" then "proj" else valueMode)
  if mode = "market" then
    match getMarketEstimate player with
    | some m => if 0 < m then m else getBaseVal26 player
    | none => getBaseVal26 player
  else getBaseVal26 player

/-- The merged weight for one category:
`num(({ ...DEFAULT_WEIGHTS, ...weights })[cat], 0)`. -/
def mergedWeight (weights : List (String × Cell)) (cat : String) : ℚ :=
  match weights.lookup cat with
  | some c => numD c 0
  | none =>
    match DEFAULT_WEIGHTS.lookup cat with
    | some q => q
    | none => 0

/-- The `baseScore`/`weightedScore` accumulation loop of
`getWeightedVal26` over the role's category list; the boolean is the
`any` flag. -/
def catScores (p : Player) (weights : List (String × Cell)) :
    List String → (ℚ × ℚ × Bool)
  | [] => (0, 0, false)
  | cat :: cats =>
    let (b, w, a) := catScores p weights cats
    match getCatStat (some p) cat with
    | none => (b, w, a)
    | some v => (b + v, w + v * mergedWeight weights cat, true)

/-- `getWeightedVal26` from js/auction-data.js (v3), including the
`baseValOverride` parameter added for the pricing engine. -/
def getWeightedVal26 (player : Option Player) (weights : List (String × Cell))
    (hasCatStats : Bool) (baseValOverride : Option ℚ := none) : ℚ :=
  let baseVal := match baseValOverride with
    | some b => b
    | none => getBaseVal26 player
  match player, hasCatStats with
  | some p, true =>
    let cats := if normType p.type = "pit" then PIT_CATS else HIT_CATS
    let (baseScore, weightedScore, any) := catScores p weights cats
    if !any || baseScore == 0 then baseVal
    else max 0 (baseVal * (weightedScore / baseScore))
  | _, _ => baseVal

/-- A saved auction target (js/storage.js), read-only to the engine. -/
structure Target where
  plan : Cell := .cnull
  max : Cell := .cnull
deriving DecidableEq, Repr

/-- The `caps` option object. -/
structure Caps where
  strategyCap : Cell := .cnull
  deltaCap : Cell := .cnull
deriving DecidableEq, Repr

/-- The `opts` argument of `computeTargetPricing`. -/
structure Opts where
  hasCatStats : Bool := false
  caps : Option Caps := none
  valueMode : String := ""
deriving DecidableEq, Repr

/-- The pricing breakdown returned by `computeTargetPricing`. -/
structure Pricing where
  baseVal : ℚ
  weightedVal : ℚ
  plan : ℚ
  marketDelta : ℚ
  strategyDelta : ℚ
  totalDelta : ℚ
  adjRaw : ℚ
deriving DecidableEq, Repr

/-- `target?.plan` etc. -/
def targetField (target : Option Target) (f : Target → Cell) : Cell :=
  match target with
  | none => .cnull
  | some t => f t

/-- `computeTargetPricing` from js/auction-data.js (v3, the current
engine): baseline by value mode, plan fallback when no positive anchor
exists, capped strategy and total deltas, and an `adjRaw` that is never
bounded by the target's hard max. -/
def computeTargetPricing (target : Option Target) (player : Option Player)
    (weights : List (String × Cell)) (opts : Opts) : Pricing :=
  let hasCatStats := opts.hasCatStats
  let caps := opts.caps.getD {}
  let strategyCap := numD caps.strategyCap 6
  let deltaCap := numD caps.deltaCap 15
  let valueMode := if opts.valueMode = "" then "proj" else opts.valueMode
  let baseValCsv := getBaselineVal player valueMode
  let weightedVal := getWeightedVal26 player weights hasCatStats (some baseValCsv)
  let plan := numD (targetField target Target.plan) 0
  let baseVal := if 0 < baseValCsv then baseValCsv else plan
  let marketDelta := baseVal - plan
  let strategyDeltaRaw := weightedVal - baseVal
  let strategyDelta := clamp strategyDeltaRaw (-strategyCap) strategyCap
  let totalDelta := clamp (marketDelta + strategyDelta) (-deltaCap) deltaCap
  let adjRaw := baseVal + totalDelta
  { baseVal := baseVal, weightedVal := weightedVal, plan := plan,
    marketDelta := marketDelta, strategyDelta := strategyDelta,
    totalDelta := totalDelta, adjRaw := adjRaw }

/-- `scoreRow` from the dedupe step of `loadAuctionPlayers`:
`val * 100000 + shadow * 100 + accented * 10 + draftable`, where
`Number(x ?? 0) || 0` maps non-numeric cells to 0 and
`shadow = imputed || actual || 0`. -/
def scoreRow (p : Player) : ℚ :=
  let val := numD p.auction_value_26 0
  let imp := numD p.auction_price_25_imputed 0
  let act := numD p.auction_price_25 0
  let shadow := if imp ≠ 0 then imp else if act ≠ 0 then act else 0
  let accented : ℚ := if hasDiacritics p.Name then 1 else 0
  let draftable : ℚ := if jsToUpper (jsString p.draftable "") = "TRUE" then 1 else 0
  val * 100000 + shadow * 100 + accented * 10 + draftable

end AuctionData

/-! ### Keyed dedupe (js/auction-data.js `loadAuctionPlayers` and
js/projections-data.js `dedupeByPlayerKey`)

Both loaders run the same `Map`-based pattern: walk the rows, skip rows
whose trimmed key is empty, keep one winner per key (`Map.set` leaves the
key at its original insertion position), then return the values.  They
differ only in the winner-picking comparison, so the map fold is shared
and each file instantiates it with its own chooser. -/

/-- `byKey.set(key, pick(cur, p))` on an insertion-ordered association
list: replace in place if the key exists, else append. -/
def insertKeyed (pick : Player → Player → Player) :
    List (String × Player) → String → Player → List (String × Player)
  | [], key, p => [(key, p)]
  | (k, q) :: rest, key, p =>
    if k = key then (k, pick q p) :: rest
    else (k, q) :: insertKeyed pick rest key p

/-- The whole dedupe loop: `for (const p of players) { ... }` followed by
`Array.from(byKey.values())`. -/
def dedupeKeyed (pick : Player → Player → Player) (players : List Player) :
    List Player :=
  (players.foldl
    (fun m p =>
      let key := jsTrim p.player_key
      if key = "" then m else insertKeyed pick m key p)
    []).map Prod.snd

/-- Both winner choices below have the shape "keep the argmax of a
score, first wins ties"; the shared shape, used to reason about the
fold. -/
def pickMaxBy (f : Player → ℚ) (cur p : Player) : Player :=
  if f cur < f p then p else cur

/-- The per-key winner of the dedupe fold over a duplicate run. -/
def foldWinner (f : Player → ℚ) (w : Player) (t : List Player) : Player :=
  t.foldl (pickMaxBy f) w

namespace AuctionData

/-- The winner choice in `loadAuctionPlayers`:
`scoreRow(p) > scoreRow(cur) ? p : cur`. -/
def pickByScore (cur p : Player) : Player :=
  if scoreRow cur < scoreRow p then p else cur

/-- The dedupe step of `loadAuctionPlayers` (js/auction-data.js v3). -/
def dedupeAuction (players : List Player) : List Player :=
  dedupeKeyed pickByScore players

end AuctionData

namespace ProjectionsData

/-- The stat keys counted by `filledCount` (js/projections-data.js). -/
def FILLED_KEYS : List String :=
  ["PA", "AVG", "OPS", "TB", "HR", "RBI", "R", "SB",
   "ERA", "WHIP", "IP", "QS", "K", "SV", "HLD"]

/-- One cell counts as filled when
`v !== undefined && v !== "" && String(v).trim() !== ""`. -/
def filledCell (c : Cell) : Bool :=
  match c with
  | .cnull => false
  | .cnum q => !(jsTrim (toString q) == "")
  | .cstr s => !(s == "") && !(jsTrim s == "")

/-- `filledCount` from js/projections-data.js: populated stat fields plus
a 0.25 preference for an accented display name. -/
def filledCount (p : Player) : ℚ :=
  (FILLED_KEYS.countP (fun k => filledCell (p.cellAt k)) : ℚ) +
    (if hasDiacritics p.Name then (1 : ℚ) / 4 else 0)

/-- The winner choice in `dedupeByPlayerKey`:
`filledCount(p) > filledCount(cur) ? p : cur`. -/
def pickByFilled (cur p : Player) : Player :=
  if filledCount cur < filledCount p then p else cur

/-- `dedupeByPlayerKey` from js/projections-data.js. -/
def dedupeByPlayerKey (players : List Player) : List Player :=
  dedupeKeyed pickByFilled players

end ProjectionsData

/-! ### js/recommended-targets.js : eligibility and the scorer -/

namespace RecTargets

/-- `normType` from js/recommended-targets.js (note: unlike the
auction-data variant it does not accept "pitcher"). -/
def normType (t : String) : String :=
  let s := jsToLower (jsTrim t)
  if s = "pit" then "pit" else "hit"

/-- Category lists from js/recommended-targets.js (aligned with
auction-data but with the pitching list in its own order). -/
def HIT_CATS : List String := ["OPS", "TB", "HR", "RBI", "R", "AVG", "SB"]

def PIT_CATS : List String := ["ERA", "WHIP", "IP", "K", "QS", "SV", "HLD"]

/-- A separator of the position list: `/[,\/\s]+/`. -/
def isPosSep (c : Char) : Bool := c == ',' || c == '/' || isWS c

/-- Split on single separators; the later empty-token filter makes this
agree with the regex split on separator runs. -/
def splitSeps : List Char → List Char → List (List Char)
  | acc, [] => [acc.reverse]
  | acc, c :: t =>
    if isPosSep c then acc.reverse :: splitSeps [] t
    else splitSeps (c :: acc) t

/-- `normPosList` from js/recommended-targets.js. -/
def normPosList (pos : String) : List String :=
  ((splitSeps [] pos.data).map (fun t => jsToUpper (jsTrim ⟨t⟩))).filter
    (fun s => !(s == ""))

/-- `isEligibleForSlot` from js/recommended-targets.js. -/
def isEligibleForSlot (player : Player) (slotKey : String) : Bool :=
  let type := normType player.type
  let posList := normPosList player.POS
  if strStartsWith slotKey "P" then type == "pit"
  else if slotKey == "UT" then type == "hit"
  else if slotKey == "OF1" || slotKey == "OF2" then
    type == "hit" && (posList.contains "OF" || posList.contains "LF" ||
      posList.contains "CF" || posList.contains "RF")
  else if slotKey == "CI" then
    type == "hit" && (posList.contains "1B" || posList.contains "3B")
  else if slotKey == "MI" then
    type == "hit" && (posList.contains "2B" || posList.contains "SS")
  else type == "hit" && posList.contains slotKey

/-- The per-slot boost constants of `needBoostForPlayer`. -/
def slotBoost (k : String) : ℚ :=
  if strStartsWith k "P" then 6
  else if k == "UT" then 4
  else if k == "OF1" || k == "OF2" then 8
  else if k == "CI" || k == "MI" then 10
  else 10

/-- `needBoostForPlayer`: max boost among eligible empty slots, 0 if
none. -/
def needBoostForPlayer (player : Player) (emptySlots : List String) : ℚ :=
  emptySlots.foldl
    (fun boost k =>
      if isEligibleForSlot player k then max boost (slotBoost k) else boost)
    0

/-- `getStablePlayerKey`: the row's `player_key`, else a key rebuilt from
its type and display name (`||` reads empty strings as falsy). -/
def getStablePlayerKey (p : Player) : String :=
  let name := jsTrim p.Name
  let type := normType p.type
  if p.player_key = "" then
    PlayerKey.getPlayerKey (.objArg { typeL := .cstr type, nameU := .cstr name })
  else p.player_key

/-- `pickFallbackPrice`: market estimate when positive, else the
projection baseline. -/
def pickFallbackPrice (p : Player) : ℚ :=
  match AuctionData.getMarketEstimate (some p) with
  | some m => if 0 < m then m else AuctionData.getBaselineVal (some p) "proj"
  | none => AuctionData.getBaselineVal (some p) "proj"

/-- The weighted-sum loop of `computeFitRaw`: returns the accumulated sum
and the `any` flag.  Categories with zero weight are skipped before the
stat is even read. -/
def fitScores (p : Player) (weights : List (String × ℚ)) :
    List String → (ℚ × Bool)
  | [] => (0, false)
  | cat :: cats =>
    let (s, a) := fitScores p weights cats
    let ww := (weights.lookup cat).getD 0
    if ww = 0 then (s, a)
    else
      match AuctionData.getCatStat (some p) cat with
      | none => (s, a)
      | some v => (s + v * ww, true)

/-- `computeFitRaw` from js/recommended-targets.js. -/
def computeFitRaw (p : Player) (weights : List (String × ℚ))
    (hasCatStats : Bool) : ℚ :=
  if !hasCatStats then 0
  else
    let cats := if normType p.type = "pit" then PIT_CATS else HIT_CATS
    let (sum, any) := fitScores p weights cats
    if any then sum else 0

/-- The `opts` argument of `scorePlayers`.  `maxPrice` is kept as a cell;
`Number.isFinite(Number(opts.maxPrice))` admits exactly the numeric
cells (callers pass either a number or nothing). -/
structure ScoreOpts where
  affordableOnly : Bool := false
  maxPrice : Cell := .cnull
deriving DecidableEq, Repr

/-- One scored row.  `fitVal` and `score` are filled by the
normalization pass. -/
structure ScoredRow where
  key : String
  player : Player
  baseVal : ℚ
  fitRaw : ℚ
  price : ℚ
  valueEdge : ℚ
  needBoost : ℚ
  fitVal : ℚ := 0
  score : ℚ := 0
deriving DecidableEq, Repr

/-- The result of `scorePlayers`. -/
structure ScoreResult where
  scored : List ScoredRow
  emptySlots : List String
  hasCatStats : Bool
deriving DecidableEq, Repr

/-- `new Set(roster.map((r) => String(r.id || "").trim()).filter(Boolean))`,
and the analogous target-key set. -/
def keySet (raw : List String) : List String :=
  (raw.map jsTrim).filter (fun s => !(s == ""))

/-- The live-price read:
`(live != null && live !== "") ? num(live, 0) : pickFallbackPrice(p)`. -/
def priceOf (livePrices : List (String × Cell)) (key : String) (p : Player) : ℚ :=
  match livePrices.lookup key with
  | some c => if c = .cnull ∨ c = .cstr "" then pickFallbackPrice p else numD c 0
  | none => pickFallbackPrice p

/-- The main candidate loop of `scorePlayers`: builds the surviving rows
and, separately, the `fitRaws` array — note that `fitRaws` receives a
value *before* the affordability filter can drop the candidate. -/
def passOne (valueMode : String) (opts : ScoreOpts)
    (weights : List (String × ℚ)) (rosterIds targetKeys : List String)
    (emptySlots : List String) (livePrices : List (String × Cell))
    (hasCatStats : Bool) : List Player → List ScoredRow × List ℚ
  | [] => ([], [])
  | p :: rest =>
    let (rows, fits) :=
      passOne valueMode opts weights rosterIds targetKeys emptySlots livePrices
        hasCatStats rest
    let key := getStablePlayerKey p
    if key = "" then (rows, fits)
    else if rosterIds.contains key then (rows, fits)
    else if targetKeys.contains key then (rows, fits)
    else
      let baseVal := AuctionData.getBaselineVal (some p) valueMode
      let fitRaw := computeFitRaw p weights hasCatStats
      let price := priceOf livePrices key p
      let needBoost := needBoostForPlayer p emptySlots
      let dropped := opts.affordableOnly &&
        (match numOpt opts.maxPrice with
         | some mp => decide (mp < price)
         | none => false)
      if dropped then (rows, fitRaw :: fits)
      else
        ({ key := key, player := p, baseVal := baseVal, fitRaw := fitRaw,
           price := price, valueEdge := clamp (baseVal - price) (-15) 15,
           needBoost := needBoost } :: rows,
         fitRaw :: fits)

/-- `Math.min(...finite)` with the empty-pool guard (`finite.length ? ... : 0`). -/
def minOfL (l : List ℚ) : ℚ :=
  match l with
  | [] => 0
  | h :: t => t.foldl min h

/-- `Math.max(...finite)` with the empty-pool guard. -/
def maxOfL (l : List ℚ) : ℚ :=
  match l with
  | [] => 0
  | h :: t => t.foldl max h

/-- `scorePlayers` from js/recommended-targets.js.  The reads of
persisted state (`getCategoryWeights`, `getRoster`, `getAuctionTargets`,
`getEmptySlotKeys`, `getLivePrices`) are modelled as explicit inputs:
`roster` carries the roster ids, `targets` the stored targets'
`player_key` strings. -/
def scorePlayers (players : List Player) (valueMode : String)
    (opts : ScoreOpts) (weights : List (String × ℚ))
    (roster targets : List String) (emptySlots : List String)
    (livePrices : List (String × Cell)) : ScoreResult :=
  let rosterIds := keySet roster
  let targetKeys := keySet targets
  let hasCatStats := (players.take 200).any (fun p => AuctionData.detectCatStats (some p))
  let (rows, fitRaws) :=
    passOne valueMode opts weights rosterIds targetKeys emptySlots livePrices
      hasCatStats players
  let minV := minOfL fitRaws
  let maxV := maxOfL fitRaws
  let denom := maxV - minV
  let scored0 := rows.map (fun r =>
    let fitNorm := if 0 < denom then 100 * (r.fitRaw - minV) / denom else 0
    { r with fitVal := fitNorm,
             score := fitNorm + r.valueEdge * (9 / 10) + r.needBoost })
  let scored := scored0.mergeSort (fun a b => decide (b.score ≤ a.score))
  { scored := scored, emptySlots := emptySlots, hasCatStats := hasCatStats }

end RecTargets

/-! ## Claim theorems -/

/-- Claim C1 (code bug witness): for a plan-only, anchor-less player the
engine does anchor the pricing base to the plan, but the strategy delta
is computed from `weightedVal`, which was evaluated against the
pre-fallback baseline 0.  With `plan = 3` (player absent from the CSV,
default caps) the result is `adjRaw = 0`, not the claimed zero-delta
`adjRaw = plan = 3` — the price collapses to exactly $0, which both the
spec and the code's own fallback comment say cannot happen. -/
theorem c1_plan_fallback_collapses_to_zero :
    (AuctionData.computeTargetPricing (some { plan := .cnum 3 }) none [] {}).baseVal = 3 ∧
    (AuctionData.computeTargetPricing (some { plan := .cnum 3 }) none [] {}).plan = 3 ∧
    (AuctionData.computeTargetPricing (some { plan := .cnum 3 }) none [] {}).strategyDelta = -3 ∧
    (AuctionData.computeTargetPricing (some { plan := .cnum 3 }) none [] {}).adjRaw = 0 ∧
    (AuctionData.computeTargetPricing (some { plan := .cnum 3 }) none [] {}).adjRaw ≠
      (AuctionData.computeTargetPricing (some { plan := .cnum 3 }) none [] {}).plan := by
  norm_num [AuctionData.computeTargetPricing, AuctionData.getWeightedVal26,
    AuctionData.getBaselineVal, AuctionData.getBaseVal26, AuctionData.getVal26,
    AuctionData.getShadow25, AuctionData.getMarketEstimate, AuctionData.fieldOf,
    AuctionData.targetField, numD, numOpt, clamp]

/-- Claim C2: the current engine's adjusted price is exactly
`baseVal + totalDelta`, and the result of `computeTargetPricing` does not
depend on the target's hard max in any way (the v3 engine never reads
`target.max`; callers apply their own ceiling). -/
theorem c2_adjRaw_is_base_plus_delta_and_ignores_hardMax
    (t : AuctionData.Target) (m : Cell) (player : Option Player)
    (weights : List (String × Cell)) (opts : AuctionData.Opts) :
    (AuctionData.computeTargetPricing (some t) player weights opts).adjRaw =
        (AuctionData.computeTargetPricing (some t) player weights opts).baseVal +
          (AuctionData.computeTargetPricing (some t) player weights opts).totalDelta ∧
      AuctionData.computeTargetPricing (some { t with max := m }) player weights opts =
        AuctionData.computeTargetPricing (some t) player weights opts := by
  exact ⟨rfl, rfl⟩

namespace AuctionData

/-- Helper: `getVal26` only ever returns clamped, nonnegative values. -/
theorem getVal26_nonneg {player : Option Player} {v : ℚ}
    (h : getVal26 player = some v) : 0 ≤ v := by
  unfold getVal26 at h
  rcases hm : numOpt (fieldOf player Player.auction_value_26) with _ | q <;> rw [hm] at h
  · exact absurd h (by simp)
  · simp only [Option.some.injEq] at h
    subst h
    exact le_max_left 0 q

/-- Helper: `getShadow25` only ever returns clamped, nonnegative values. -/
theorem getShadow25_nonneg {player : Option Player} {v : ℚ}
    (h : getShadow25 player = some v) : 0 ≤ v := by
  unfold getShadow25 at h
  rcases hm : numOpt (fieldOf player Player.auction_price_25_imputed) with _ | q <;>
    rw [hm] at h
  · rcases ha : numOpt (fieldOf player Player.auction_price_25) with _ | a <;> rw [ha] at h
    · exact absurd h (by simp)
    · simp only [Option.some.injEq] at h
      subst h
      exact le_max_left 0 a
  · simp only [Option.some.injEq] at h
    subst h
    exact le_max_left 0 q

/-- Helper: the projection baseline is nonnegative. -/
theorem getBaseVal26_nonneg (player : Option Player) : 0 ≤ getBaseVal26 player := by
  unfold getBaseVal26
  rcases hv : getVal26 player with _ | v
  · rcases hs : getShadow25 player with _ | s
    · simp
    · simpa using getShadow25_nonneg hs
  · simpa using getVal26_nonneg hv

/-- Helper: unfolding `getBaselineVal` at mode "market". -/
theorem getBaselineVal_market (player : Option Player) :
    getBaselineVal player "market" =
      match getMarketEstimate player with
      | some m => if 0 < m then m else getBaseVal26 player
      | none => getBaseVal26 player := by
  have h1 : (("market" : String) = "") = False := by simp
  have h2 : jsToLower "market" = "market" := by decide
  unfold getBaselineVal
  simp only [h1, if_false, h2, if_pos rfl]
  rcases getMarketEstimate player with _ | m <;> rfl

/-- Helper: unfolding `getBaselineVal` at mode "proj". -/
theorem getBaselineVal_proj (player : Option Player) :
    getBaselineVal player "proj" = getBaseVal26 player := by
  have h1 : (("proj" : String) = "") = False := by simp
  have h2 : jsToLower "proj" = "proj" := by decide
  have h3 : (("proj" : String) = "market") = False := by simp
  unfold getBaselineVal
  simp only [h1, if_false, h2, h3]

/-- Helper: the selected baseline is nonnegative in every mode. -/
theorem getBaselineVal_nonneg (player : Option Player) (mode : String) :
    0 ≤ getBaselineVal player mode := by
  have hbase := getBaseVal26_nonneg player
  unfold getBaselineVal
  by_cases h : jsToLower (if mode = "" then "proj" else mode) = "market"
  · rw [h]
    simp only [if_pos rfl]
    cases hm : getMarketEstimate player with
    | none => exact hbase
    | some m =>
      dsimp only
      by_cases hpos : 0 < m
      · rw [if_pos hpos]; exact hpos.le
      · rw [if_neg hpos]; exact hbase
  · rw [if_neg h]
    exact hbase

end AuctionData

/-- Claim C5: baseline selection.  In market mode the baseline is the
market-estimate anchor when positive and otherwise the projection-mode
baseline; in projection mode it is the (nonnegativity-clamped)
projection anchor when present, else the prior-year anchor (imputed,
then actual, via `getShadow25`), else 0; and the baseline is never
negative in any mode. -/
theorem c5_baseline_selection (p : Player) :
    (∀ m : ℚ, numOpt p.market_estimate = some m → 0 < m →
        AuctionData.getBaselineVal (some p) "market" = m) ∧
    (∀ m : ℚ, numOpt p.market_estimate = some m → m ≤ 0 →
        AuctionData.getBaselineVal (some p) "market" =
          AuctionData.getBaselineVal (some p) "proj") ∧
    (numOpt p.market_estimate = none →
        AuctionData.getBaselineVal (some p) "market" =
          AuctionData.getBaselineVal (some p) "proj") ∧
    (∀ v : ℚ, numOpt p.auction_value_26 = some v →
        AuctionData.getBaselineVal (some p) "proj" = max 0 v) ∧
    (numOpt p.auction_value_26 = none →
        AuctionData.getBaselineVal (some p) "proj" =
          (AuctionData.getShadow25 (some p)).getD 0) ∧
    (∀ mode : String, 0 ≤ AuctionData.getBaselineVal (some p) mode) := by
  refine ⟨?_, ?_, ?_, ?_, ?_, ?_⟩
  · intro m hm hpos
    have hest : AuctionData.getMarketEstimate (some p) = some (max 0 m) := by
      simp [AuctionData.getMarketEstimate, AuctionData.fieldOf, hm]
    have hmax : max 0 m = m := max_eq_right hpos.le
    rw [AuctionData.getBaselineVal_market, hest, hmax]
    simp [hpos]
  · intro m hm hnonpos
    have hest : AuctionData.getMarketEstimate (some p) = some (max 0 m) := by
      simp [AuctionData.getMarketEstimate, AuctionData.fieldOf, hm]
    have hmax : max 0 m = 0 := max_eq_left hnonpos
    rw [AuctionData.getBaselineVal_market, hest, hmax, AuctionData.getBaselineVal_proj]
    simp
  · intro hm
    have hest : AuctionData.getMarketEstimate (some p) = none := by
      simp [AuctionData.getMarketEstimate, AuctionData.fieldOf, hm]
    rw [AuctionData.getBaselineVal_market, hest, AuctionData.getBaselineVal_proj]
  · intro v hv
    have hval : AuctionData.getVal26 (some p) = some (max 0 v) := by
      simp [AuctionData.getVal26, AuctionData.fieldOf, hv]
    rw [AuctionData.getBaselineVal_proj]
    unfold AuctionData.getBaseVal26
    rw [hval]
  · intro hv
    have hval : AuctionData.getVal26 (some p) = none := by
      simp [AuctionData.getVal26, AuctionData.fieldOf, hv]
    rw [AuctionData.getBaselineVal_proj]
    unfold AuctionData.getBaseVal26
    rw [hval]
    rcases hs : AuctionData.getShadow25 (some p) with _ | s <;> simp [hs]
  · intro mode
    exact AuctionData.getBaselineVal_nonneg (some p) mode

/-- Witness for C5 at a concrete record: market estimate 12 and
projection anchor 7 give a market baseline of 12, a projection baseline
of 7, and nonnegative baselines. -/
theorem c5_baseline_selection_witness :
    AuctionData.getBaselineVal
        (some { market_estimate := .cnum 12, auction_value_26 := .cnum 7 }) "market" = 12 ∧
    AuctionData.getBaselineVal
        (some { market_estimate := .cnum 12, auction_value_26 := .cnum 7 }) "proj" = 7 := by
  have h := c5_baseline_selection
    { market_estimate := .cnum 12, auction_value_26 := .cnum 7 }
  refine ⟨h.1 12 rfl (by norm_num), ?_⟩
  have h7 := h.2.2.2.1 7 rfl
  rw [h7]
  norm_num

/-- Claim C7: a hitter whose parsed position set is exactly 2B is
eligible for the middle-infield composite slot and for the standard 2B
slot, and is not eligible for the outfield slot OF1, the catcher slot C,
or any pitching slot (keys starting with "P"). -/
theorem c7_second_baseman_eligibility (p : Player)
    (hhit : RecTargets.normType p.type = "hit")
    (hpos : RecTargets.normPosList p.POS = ["2B"]) :
    RecTargets.isEligibleForSlot p "MI" = true ∧
    RecTargets.isEligibleForSlot p "2B" = true ∧
    RecTargets.isEligibleForSlot p "OF1" = false ∧
    RecTargets.isEligibleForSlot p "C" = false ∧
    ∀ slotKey : String, strStartsWith slotKey "P" = true →
      RecTargets.isEligibleForSlot p slotKey = false := by
  refine ⟨?_, ?_, ?_, ?_, ?_⟩
  · simp [RecTargets.isEligibleForSlot, hhit, hpos,
      (by decide : strStartsWith "MI" "P" = false)]
  · simp [RecTargets.isEligibleForSlot, hhit, hpos,
      (by decide : strStartsWith "2B" "P" = false)]
  · simp [RecTargets.isEligibleForSlot, hhit, hpos,
      (by decide : strStartsWith "OF1" "P" = false)]
  · simp [RecTargets.isEligibleForSlot, hhit, hpos,
      (by decide : strStartsWith "C" "P" = false)]
  · intro k hk
    simp [RecTargets.isEligibleForSlot, hk, hhit]

/-- Witness for C7: the concrete hitter row with position text "2B". -/
theorem c7_second_baseman_eligibility_witness :
    RecTargets.isEligibleForSlot { type := "hit", POS := "2B" } "MI" = true ∧
    RecTargets.isEligibleForSlot { type := "hit", POS := "2B" } "P3" = false := by
  have h := c7_second_baseman_eligibility { type := "hit", POS := "2B" }
    (by decide) (by decide)
  exact ⟨h.1, h.2.2.2.2 "P3" (by decide)⟩

namespace AuctionData

/-- Helper: looking up a key that survived the `setStat`/`dropStat`
filter is the same as looking it up in the original column list. -/
theorem lookup_filter_out (stats : List (String × Cell)) (k k' : String)
    (h : ¬ k' = k) :
    (stats.filter (fun e => !(e.1 == k))).lookup k' = stats.lookup k' := by
  induction stats with
  | nil => rfl
  | cons e rest ih =>
    rcases e with ⟨a, b⟩
    by_cases hak : a = k
    · subst hak
      have hk' : (k' == a) = false := by simpa using h
      simp only [List.filter_cons, beq_self_eq_true, Bool.not_true, Bool.false_eq_true,
        if_false, List.lookup, hk', ih]
    · have hfa : ((a, b).1 == k) = false := by simpa using hak
      simp only [List.filter_cons, hfa, Bool.not_false, if_true, List.lookup]
      by_cases hk' : k' = a
      · simp [hk']
      · simp only [show (k' == a) = false by simpa using hk', ih]

/-- Helper: reading a column after `setStat`. -/
theorem cellAt_setStat (p : Player) (k : String) (c : Cell) (k' : String) :
    (p.setStat k c).cellAt k' = if k' = k then c else p.cellAt k' := by
  by_cases h : k' = k
  · subst h
    simp [Player.cellAt, Player.setStat, List.lookup]
  · simp only [Player.cellAt, Player.setStat, List.lookup,
      show (k' == k) = false by simpa using h, if_neg h]
    rw [lookup_filter_out _ _ _ h]

/-- Helper: reading a column after `dropStat`. -/
theorem cellAt_dropStat (p : Player) (k : String) (k' : String) :
    (p.dropStat k).cellAt k' = if k' = k then Cell.cnull else p.cellAt k' := by
  by_cases h : k' = k
  · subst h
    simp only [Player.dropStat, Player.cellAt, if_pos rfl]
    induction p.stats with
    | nil => rfl
    | cons e rest ih =>
      rcases e with ⟨a, b⟩
      by_cases hak : a = k'
      · simpa [List.filter_cons, hak] using ih
      · simp only [List.filter_cons, show ((a, b).1 == k') = false by simpa using hak,
          Bool.not_false, if_true, List.lookup,
          show (k' == a) = false by simpa using fun hh => hak hh.symm]
        exact ih
  · simp only [Player.dropStat, Player.cellAt, if_neg h]
    rw [lookup_filter_out _ _ _ h]

/-- Helper: a non-numeric written cell is probed exactly like a removed
one. -/
theorem probeCols_set_drop (p : Player) (k : String) (c : Cell)
    (hc : numOpt c = none) (ks : List String) :
    probeCols (p.setStat k c) ks = probeCols (p.dropStat k) ks := by
  induction ks with
  | nil => rfl
  | cons k' ks ih =>
    unfold probeCols
    rw [cellAt_setStat, cellAt_dropStat]
    by_cases h : k' = k
    · simp only [if_pos h, hc]
      simpa using ih
    · simp only [if_neg h]
      cases numOpt (p.cellAt k') with
      | none => exact ih
      | some v => rfl

/-- Helper: `getCatStat` ignores a malformed cell exactly as if the
column were absent. -/
theorem getCatStat_set_drop (p : Player) (k : String) (c : Cell)
    (hc : numOpt c = none) (cat : String) :
    getCatStat (some (p.setStat k c)) cat = getCatStat (some (p.dropStat k)) cat :=
  probeCols_set_drop p k c hc (catCandidates cat)

/-- Helper: `catScores` only depends on the player through
`getCatStat`. -/
theorem catScores_congr (p1 p2 : Player) (w : List (String × Cell))
    (h : ∀ cat, getCatStat (some p1) cat = getCatStat (some p2) cat) :
    ∀ cats, catScores p1 w cats = catScores p2 w cats := by
  intro cats
  induction cats with
  | nil => rfl
  | cons cat cats ih =>
    unfold catScores
    rw [ih, h cat]

/-- Helper: `getWeightedVal26` with an explicit base override only
depends on the player through its role and its category stats. -/
theorem getWeightedVal26_congr (p1 p2 : Player) (w : List (String × Cell))
    (hcs : Bool) (b : ℚ) (htype : p1.type = p2.type)
    (h : ∀ cat, getCatStat (some p1) cat = getCatStat (some p2) cat) :
    getWeightedVal26 (some p1) w hcs (some b) =
      getWeightedVal26 (some p2) w hcs (some b) := by
  cases hcs with
  | false => rfl
  | true =>
    unfold getWeightedVal26
    dsimp only
    rw [htype, catScores_congr p1 p2 w h]

/-- Helper: `getBaselineVal` only depends on the player through its
market estimate and projection baseline. -/
theorem getBaselineVal_congr (p1 p2 : Option Player)
    (hm : getMarketEstimate p1 = getMarketEstimate p2)
    (hb : getBaseVal26 p1 = getBaseVal26 p2) (vm : String) :
    getBaselineVal p1 vm = getBaselineVal p2 vm := by
  unfold getBaselineVal
  rw [hm, hb]

/-- Helper: the whole pricing computation only depends on the player
through baseline, role and category stats. -/
theorem computeTargetPricing_congr (t : Option Target)
    (w : List (String × Cell)) (o : Opts) (p1 p2 : Player)
    (hbase : ∀ vm, getBaselineVal (some p1) vm = getBaselineVal (some p2) vm)
    (htype : p1.type = p2.type)
    (hcat : ∀ cat, getCatStat (some p1) cat = getCatStat (some p2) cat) :
    computeTargetPricing t (some p1) w o = computeTargetPricing t (some p2) w o := by
  have hw : ∀ b : ℚ, getWeightedVal26 (some p1) w o.hasCatStats (some b) =
      getWeightedVal26 (some p2) w o.hasCatStats (some b) :=
    fun b => getWeightedVal26_congr p1 p2 w o.hasCatStats b htype hcat
  unfold computeTargetPricing
  simp only [hbase, hw]

end AuctionData

namespace AuctionData

/-- Helper: a player without stat columns yields no category stat. -/
theorem probeCols_no_stats (p : Player) (hp : p.stats = []) :
    ∀ ks, probeCols p ks = none := by
  intro ks
  induction ks with
  | nil => rfl
  | cons k ks ih =>
    unfold probeCols
    have hcell : p.cellAt k = .cnull := by simp [Player.cellAt, hp]
    rw [hcell]
    exact ih

/-- Helper: `catScores` over categories with no stat present is the
neutral accumulator. -/
theorem catScores_none (p : Player) (w : List (String × Cell))
    (cats : List String) (h : ∀ cat ∈ cats, getCatStat (some p) cat = none) :
    catScores p w cats = (0, 0, false) := by
  induction cats with
  | nil => rfl
  | cons cat cats ih =>
    unfold catScores
    rw [ih (fun c hc => h c (List.mem_cons_of_mem _ hc)), h cat (List.mem_cons_self _ _)]

/-- Helper: a missing player record prices exactly like a row with no
data at all — every branch has a defined fallback. -/
theorem computeTargetPricing_null_empty (t : Option Target)
    (w : List (String × Cell)) (o : Opts) :
    computeTargetPricing t none w o = computeTargetPricing t (some {}) w o := by
  have hbase : ∀ vm, getBaselineVal none vm = getBaselineVal (some {}) vm :=
    fun vm => getBaselineVal_congr none (some {}) rfl rfl vm
  have hcat : ∀ cat, getCatStat (some ({} : Player)) cat = none :=
    fun cat => probeCols_no_stats {} rfl (catCandidates cat)
  have hw : ∀ (hcs : Bool) (b : ℚ), getWeightedVal26 none w hcs (some b) =
      getWeightedVal26 (some {}) w hcs (some b) := by
    intro hcs b
    cases hcs with
    | false => rfl
    | true =>
      unfold getWeightedVal26
      dsimp only
      rw [catScores_none {} w _ (fun cat _ => hcat cat)]
      simp
  unfold computeTargetPricing
  simp only [hbase, hw]

end AuctionData

/-- Claim C9: valuation is total and malformed cells are inert.  A
non-numeric stat cell behaves exactly as if the column were absent (it
is never read as zero and contributes nothing to the base/weighted
accumulators), non-numeric anchor cells behave exactly like missing
anchors, and a missing (`null`) player record prices like an all-empty
row — every branch of `computeTargetPricing` has a defined fallback. -/
theorem c9_malformed_cells_and_totality
    (t : Option AuctionData.Target) (w : List (String × Cell))
    (o : AuctionData.Opts) (p : Player) (k : String) (c : Cell)
    (hc : numOpt c = none) :
    (∀ cat, AuctionData.getCatStat (some (p.setStat k c)) cat =
        AuctionData.getCatStat (some (p.dropStat k)) cat) ∧
    AuctionData.computeTargetPricing t (some (p.setStat k c)) w o =
      AuctionData.computeTargetPricing t (some (p.dropStat k)) w o ∧
    AuctionData.computeTargetPricing t
        (some { p with auction_value_26 := c, market_estimate := c,
                       auction_price_25_imputed := c, auction_price_25 := c }) w o =
      AuctionData.computeTargetPricing t
        (some { p with auction_value_26 := .cnull, market_estimate := .cnull,
                       auction_price_25_imputed := .cnull, auction_price_25 := .cnull }) w o ∧
    AuctionData.computeTargetPricing t none w o =
      AuctionData.computeTargetPricing t (some {}) w o := by
  have hcat1 : ∀ cat, AuctionData.getCatStat (some (p.setStat k c)) cat =
      AuctionData.getCatStat (some (p.dropStat k)) cat :=
    fun cat => AuctionData.getCatStat_set_drop p k c hc cat
  refine ⟨hcat1, ?_, ?_, AuctionData.computeTargetPricing_null_empty t w o⟩
  · exact AuctionData.computeTargetPricing_congr t w o _ _
      (fun vm => AuctionData.getBaselineVal_congr _ _ rfl rfl vm) rfl hcat1
  · have hm : AuctionData.getMarketEstimate
        (some { p with auction_value_26 := c, market_estimate := c,
                       auction_price_25_imputed := c, auction_price_25 := c }) =
        AuctionData.getMarketEstimate
          (some { p with auction_value_26 := .cnull, market_estimate := .cnull,
                         auction_price_25_imputed := .cnull, auction_price_25 := .cnull }) := by
      have hnull : numOpt Cell.cnull = none := rfl
      simp [AuctionData.getMarketEstimate, AuctionData.fieldOf, hc, hnull]
    have hb : AuctionData.getBaseVal26
        (some { p with auction_value_26 := c, market_estimate := c,
                       auction_price_25_imputed := c, auction_price_25 := c }) =
        AuctionData.getBaseVal26
          (some { p with auction_value_26 := .cnull, market_estimate := .cnull,
                         auction_price_25_imputed := .cnull, auction_price_25 := .cnull }) := by
      have hnull : numOpt Cell.cnull = none := rfl
      unfold AuctionData.getBaseVal26 AuctionData.getVal26 AuctionData.getShadow25
      simp [AuctionData.fieldOf, hc, hnull]
    exact AuctionData.computeTargetPricing_congr t w o _ _
      (fun vm => AuctionData.getBaselineVal_congr _ _ hm hb vm) rfl (fun cat => rfl)

/-- Witness for C9: writing the non-numeric text cell "N/A" into the OPS
column of a row reads back exactly like deleting the column. -/
theorem c9_malformed_cells_and_totality_witness :
    AuctionData.getCatStat
        (some (Player.setStat { stats := [("OPS", Cell.cnum 5)] } "OPS" (Cell.cstr "N/A")))
        "OPS" =
      AuctionData.getCatStat
        (some (Player.dropStat { stats := [("OPS", Cell.cnum 5)] } "OPS")) "OPS" :=
  (c9_malformed_cells_and_totality none [] {} { stats := [("OPS", Cell.cnum 5)] }
    "OPS" (Cell.cstr "N/A") rfl).1 "OPS"

/-! ### Idempotence of `normalizeName`

Characters surviving one pass of the pipeline are either the single
space or "stable" characters: NFD-inert, not combining marks, not
periods, lowercase-inert and not whitespace.  A second pass is then the
identity. -/

/-- Helper: a successful association-list lookup comes from an entry. -/
theorem lookup_mem {α β : Type} [BEq α] (l : List (α × β)) (a : α) (b : β)
    (h : l.lookup a = some b) : ∃ k, (k, b) ∈ l ∧ (a == k) = true := by
  induction l with
  | nil => simp [List.lookup] at h
  | cons e rest ih =>
    rcases e with ⟨k, v⟩
    rw [List.lookup] at h
    rcases hak : (a == k) with _ | _
    · rw [hak] at h
      rcases ih h with ⟨k', hk', hak'⟩
      exact ⟨k', List.mem_cons_of_mem _ hk', hak'⟩
    · rw [hak] at h
      simp only [Option.some.injEq] at h
      subst h
      exact ⟨k, List.mem_cons_self _ _, hak⟩

/-- Table audit: every character in an NFD decomposition is either a
combining mark or lowercases to a stable, non-whitespace character. -/
theorem nfdTable_audit :
    nfdTable.all (fun e => e.2.all
      (fun d => isCombining d ||
        (stableChar (lowerChar d) && !isWS (lowerChar d)))) = true := by
  decide

/-- Table audit: every lower-case image in the case table is stable and
not whitespace. -/
theorem lowerTable_audit :
    lowerTable.all (fun e => stableChar e.2 && !isWS e.2) = true := by
  decide

/-- The space character is NFD-inert, not combining, not a period, and
lowercase-inert. -/
theorem stableChar_space : stableChar ' ' = true := by decide

/-- Charwise core fact: lowercasing any non-mark, non-period,
non-whitespace character produced by NFD yields a stable,
non-whitespace character. -/
theorem lower_of_nfd_stable (c d : Char) (hd : d ∈ nfdChar c)
    (hcomb : isCombining d = false) (hdot : (d == '.') = false)
    (hws : isWS d = false) :
    stableChar (lowerChar d) = true ∧ isWS (lowerChar d) = false := by
  unfold nfdChar at hd
  rcases hlk : nfdTable.lookup c with _ | ds
  · rw [hlk] at hd
    simp only [Option.getD_none, List.mem_singleton] at hd
    subst hd
    rcases hlo : lowerTable.lookup d with _ | v
    · have hlow : lowerChar d = d := by simp [lowerChar, hlo]
      rw [hlow]
      refine ⟨?_, hws⟩
      unfold stableChar
      have hnfd : nfdChar d = [d] := by simp [nfdChar, hlk]
      simp [hnfd, hcomb, hdot, lowerChar, hlo]
    · have hlow : lowerChar d = v := by simp [lowerChar, hlo]
      rcases lookup_mem _ _ _ hlo with ⟨k, hk, _⟩
      have := List.all_eq_true.mp lowerTable_audit _ hk
      simp only [Bool.and_eq_true, Bool.not_eq_true'] at this
      rw [hlow]
      exact ⟨this.1, this.2⟩
  · rw [hlk] at hd
    simp only [Option.getD_some] at hd
    rcases lookup_mem _ _ _ hlk with ⟨k, hk, _⟩
    have hall := List.all_eq_true.mp nfdTable_audit _ hk
    have hdall := List.all_eq_true.mp hall _ hd
    rw [hcomb] at hdall
    simp only [Bool.false_or, Bool.and_eq_true, Bool.not_eq_true'] at hdall
    exact hdall

/-- Cons characterization of `noTwoWS`. -/
theorem noTwoWS_cons (a : Char) (l : List Char) :
    noTwoWS (a :: l) = true ↔
      (∀ c, l.head? = some c → (isWS a && isWS c) = false) ∧ noTwoWS l = true := by
  cases l with
  | nil => simp [noTwoWS]
  | cons b t =>
    simp only [noTwoWS, Bool.and_eq_true, Bool.not_eq_true', List.head?_cons]
    constructor
    · rintro ⟨h1, h2⟩
      exact ⟨fun c hc => by cases hc; exact h1, h2⟩
    · rintro ⟨h1, h2⟩
      exact ⟨h1 b rfl, h2⟩

/-- `noTwoWS` passes to the tail. -/
theorem noTwoWS_tail (a : Char) (l : List Char)
    (h : noTwoWS (a :: l) = true) : noTwoWS l = true :=
  ((noTwoWS_cons a l).mp h).2

/-- Characters produced by the whitespace collapse: the space, or an
input character that is not whitespace. -/
theorem collapse_mem (z : List Char) :
    ∀ (b : Bool) (c : Char), c ∈ collapseAux b z →
      c = ' ' ∨ (c ∈ z ∧ isWS c = false) := by
  induction z with
  | nil => intro b c hc; simp [collapseAux] at hc
  | cons a t ih =>
    intro b c hc
    unfold collapseAux at hc
    by_cases hws : isWS a
    · rw [if_pos hws] at hc
      cases b with
      | true =>
        rcases ih true c hc with h | ⟨hm, hn⟩
        · exact Or.inl h
        · exact Or.inr ⟨List.mem_cons_of_mem _ hm, hn⟩
      | false =>
        rcases List.mem_cons.mp hc with h | h
        · exact Or.inl h
        · rcases ih true c h with h' | ⟨hm, hn⟩
          · exact Or.inl h'
          · exact Or.inr ⟨List.mem_cons_of_mem _ hm, hn⟩
    · rw [if_neg hws] at hc
      rcases List.mem_cons.mp hc with h | h
      · subst h
        exact Or.inr ⟨List.mem_cons_self _ _, by simpa using hws⟩
      · rcases ih false c h with h' | ⟨hm, hn⟩
        · exact Or.inl h'
        · exact Or.inr ⟨List.mem_cons_of_mem _ hm, hn⟩

/-- The whitespace collapse never emits two adjacent whitespace
characters, and in the "just emitted a space" state its output starts
with a non-whitespace character. -/
theorem collapse_noTwoWS (z : List Char) :
    noTwoWS (collapseAux false z) = true ∧
    noTwoWS (collapseAux true z) = true ∧
    (∀ c, (collapseAux true z).head? = some c → isWS c = false) := by
  induction z with
  | nil => exact ⟨rfl, rfl, by intro c hc; simp [collapseAux] at hc⟩
  | cons a t ih =>
    rcases ih with ⟨ihf, iht, ihh⟩
    by_cases hws : isWS a
    · have h1 : collapseAux false (a :: t) = ' ' :: collapseAux true t := by
        simp [collapseAux, hws]
      have h2 : collapseAux true (a :: t) = collapseAux true t := by
        simp [collapseAux, hws]
      refine ⟨?_, by rw [h2]; exact iht, by rw [h2]; exact ihh⟩
      rw [h1, noTwoWS_cons]
      exact ⟨fun c hc => by rw [ihh c hc, Bool.and_false], iht⟩
    · have h1 : collapseAux false (a :: t) = a :: collapseAux false t := by
        simp [collapseAux, hws]
      have h2 : collapseAux true (a :: t) = a :: collapseAux false t := by
        simp [collapseAux, hws]
      have hcons : noTwoWS (a :: collapseAux false t) = true := by
        rw [noTwoWS_cons]
        refine ⟨fun c _ => ?_, ihf⟩
        rw [show isWS a = false by simpa using hws, Bool.false_and]
      refine ⟨by rw [h1]; exact hcons, by rw [h2]; exact hcons, ?_⟩
      intro c hc
      rw [h2, List.head?_cons, Option.some.injEq] at hc
      subst hc
      simpa using hws

/-- On an already-collapsed list (all whitespace is the single space,
no two adjacent), the collapse is the identity. -/
theorem collapse_id (z : List Char) (hsp : ∀ c ∈ z, isWS c = true → c = ' ')
    (hnt : noTwoWS z = true) :
    collapseAux false z = z ∧
    ((∀ c, z.head? = some c → isWS c = false) → collapseAux true z = z) := by
  induction z with
  | nil => exact ⟨rfl, fun _ => rfl⟩
  | cons a t ih =>
    have hsp' : ∀ c ∈ t, isWS c = true → c = ' ' :=
      fun c hc => hsp c (List.mem_cons_of_mem _ hc)
    rcases ih hsp' (noTwoWS_tail _ _ hnt) with ⟨ihf, iht⟩
    constructor
    · by_cases hws : isWS a
      · have ha : a = ' ' := hsp a (List.mem_cons_self _ _) hws
        have hhead : ∀ c, t.head? = some c → isWS c = false := by
          intro c hc
          have := ((noTwoWS_cons a t).mp hnt).1 c hc
          rw [hws] at this
          simpa using this
        simp only [collapseAux, if_pos hws]
        rw [iht hhead, ha]
        simp
      · simp only [collapseAux, if_neg hws]
        rw [ihf]
    · intro hh
      have hwa : isWS a = false := hh a rfl
      simp only [collapseAux, hwa, Bool.false_eq_true, if_false]
      rw [ihf]

/-- Members of `dropTrailWS l` are members of `l`. -/
theorem dropTrail_mem (l : List Char) (c : Char) (h : c ∈ dropTrailWS l) :
    c ∈ l := by
  induction l with
  | nil => simp [dropTrailWS] at h
  | cons a t ih =>
    unfold dropTrailWS at h
    by_cases hc : (dropTrailWS t).isEmpty && isWS a
    · rw [if_pos hc] at h
      simp at h
    · rw [if_neg hc] at h
      rcases List.mem_cons.mp h with h' | h'
      · exact h' ▸ List.mem_cons_self _ _
      · exact List.mem_cons_of_mem _ (ih h')

/-- `dropTrailWS` preserves the head when the result is nonempty. -/
theorem head_dropTrail (l : List Char) (c : Char)
    (h : (dropTrailWS l).head? = some c) : l.head? = some c := by
  induction l with
  | nil => simp [dropTrailWS] at h
  | cons a t _ =>
    unfold dropTrailWS at h
    by_cases hc : (dropTrailWS t).isEmpty && isWS a
    · rw [if_pos hc] at h
      simp at h
    · rw [if_neg hc] at h
      simpa using h

/-- Unfolding lemma for `dropTrailWS` on a cons cell. -/
theorem dropTrail_cons (a : Char) (t : List Char) :
    dropTrailWS (a :: t) =
      if (dropTrailWS t).isEmpty && isWS a then [] else a :: dropTrailWS t := rfl

/-- `dropTrailWS` is idempotent. -/
theorem dropTrail_idem (l : List Char) :
    dropTrailWS (dropTrailWS l) = dropTrailWS l := by
  induction l with
  | nil => rfl
  | cons a t ih =>
    rw [dropTrail_cons]
    by_cases hc : (dropTrailWS t).isEmpty && isWS a
    · rw [if_pos hc]
      rfl
    · rw [if_neg hc, dropTrail_cons, ih, if_neg hc]

/-- `dropTrailWS` preserves `noTwoWS`. -/
theorem noTwoWS_dropTrail (l : List Char) (h : noTwoWS l = true) :
    noTwoWS (dropTrailWS l) = true := by
  induction l with
  | nil => exact h
  | cons a t ih =>
    unfold dropTrailWS
    by_cases hc : (dropTrailWS t).isEmpty && isWS a
    · rw [if_pos hc]; rfl
    · rw [if_neg hc]
      rw [noTwoWS_cons]
      refine ⟨?_, ih (noTwoWS_tail _ _ h)⟩
      intro c hcc
      exact ((noTwoWS_cons a t).mp h).1 c (head_dropTrail t c hcc)

/-- The head of `dropWhile p` never satisfies `p`. -/
theorem head_dropWhile (p : Char → Bool) (l : List Char) (c : Char)
    (h : (l.dropWhile p).head? = some c) : p c = false := by
  induction l with
  | nil => simp at h
  | cons a t ih =>
    rw [List.dropWhile_cons] at h
    by_cases hp : p a
    · rw [if_pos hp] at h
      exact ih h
    · rw [if_neg hp] at h
      rw [List.head?_cons, Option.some.injEq] at h
      subst h
      simpa using hp

/-- `dropWhile p` is the identity when the head does not satisfy `p`. -/
theorem dropWhile_id_of_head (p : Char → Bool) (l : List Char)
    (h : ∀ c, l.head? = some c → p c = false) : l.dropWhile p = l := by
  cases l with
  | nil => rfl
  | cons a t =>
    rw [List.dropWhile_cons, if_neg]
    rw [h a rfl]
    simp

/-- `dropWhile` preserves `noTwoWS`. -/
theorem noTwoWS_dropWhile (p : Char → Bool) (l : List Char)
    (h : noTwoWS l = true) : noTwoWS (l.dropWhile p) = true := by
  induction l with
  | nil => exact h
  | cons a t ih =>
    rw [List.dropWhile_cons]
    by_cases hp : p a
    · rw [if_pos hp]
      exact ih (noTwoWS_tail _ _ h)
    · rw [if_neg hp]
      exact h

/-- `noTwoWS` survives any map that preserves whitespace-status of the
list members. -/
theorem noTwoWS_map (f : Char → Char) (l : List Char)
    (hf : ∀ c ∈ l, isWS (f c) = isWS c) (h : noTwoWS l = true) :
    noTwoWS (l.map f) = true := by
  induction l with
  | nil => exact h
  | cons a t ih =>
    rw [List.map_cons, noTwoWS_cons]
    constructor
    · intro c hc
      rcases t with _ | ⟨b, t'⟩
      · simp at hc
      · rw [List.map_cons, List.head?_cons, Option.some.injEq] at hc
        subst hc
        rw [hf a (List.mem_cons_self _ _), hf b (List.mem_cons_of_mem _ (List.mem_cons_self _ _))]
        exact ((noTwoWS_cons a _).mp h).1 b rfl
    · exact ih (fun c hc => hf c (List.mem_cons_of_mem _ hc)) (noTwoWS_tail _ _ h)

/-- `nfdL` is the identity on NFD-inert characters. -/
theorem nfdL_id (l : List Char) (h : ∀ c ∈ l, (nfdChar c == [c]) = true) :
    nfdL l = l := by
  induction l with
  | nil => rfl
  | cons a t ih =>
    have ha : nfdChar a = [a] := by
      simpa using h a (List.mem_cons_self _ _)
    unfold nfdL at ih ⊢
    rw [List.flatMap_cons, ha, ih (fun c hc => h c (List.mem_cons_of_mem _ hc))]
    rfl

/-- A filter that accepts every member is the identity. -/
theorem filter_id_of (p : Char → Bool) (l : List Char)
    (h : ∀ c ∈ l, p c = true) : l.filter p = l := by
  induction l with
  | nil => rfl
  | cons a t ih =>
    rw [List.filter_cons, if_pos (h a (List.mem_cons_self _ _))]
    rw [ih (fun c hc => h c (List.mem_cons_of_mem _ hc))]

/-- A map that fixes every member is the identity. -/
theorem map_id_of (f : Char → Char) (l : List Char)
    (h : ∀ c ∈ l, f c = c) : l.map f = l := by
  induction l with
  | nil => rfl
  | cons a t ih =>
    rw [List.map_cons, h a (List.mem_cons_self _ _),
      ih (fun c hc => h c (List.mem_cons_of_mem _ hc))]

/-- Every character of one pass's output is stable, and whitespace in
the output is exactly the single space. -/
theorem normalizeChars_chars (l : List Char) :
    ∀ c ∈ normalizeChars l,
      stableChar c = true ∧ (isWS c = true → c = ' ') := by
  intro c hc
  have hc_w : c ∈ lowerL (collapseWS (stripDots (stripMarks (nfdL l)))) := by
    have h1 := dropTrail_mem _ _ hc
    exact List.dropWhile_subset _ h1
  rcases List.mem_map.mp hc_w with ⟨x, hx, hfx⟩
  rcases collapse_mem _ _ _ hx with hsp | ⟨hxz, hxws⟩
  · subst hsp
    have : lowerChar ' ' = ' ' := by decide
    rw [this] at hfx
    subst hfx
    exact ⟨stableChar_space, fun _ => rfl⟩
  · rcases List.mem_filter.mp hxz with ⟨hxm, hdot⟩
    rcases List.mem_filter.mp hxm with ⟨hxn, hcomb⟩
    rcases List.mem_flatMap.mp hxn with ⟨c0, _, hx0⟩
    have hst := lower_of_nfd_stable c0 x hx0 (by simpa using hcomb)
      (by simpa using hdot) hxws
    subst hfx
    exact ⟨hst.1, fun hws => absurd hws (by rw [hst.2]; simp)⟩

/-- One pass's output has no two adjacent whitespace characters. -/
theorem normalizeChars_noTwoWS (l : List Char) :
    noTwoWS (normalizeChars l) = true := by
  have hz := (collapse_noTwoWS (stripDots (stripMarks (nfdL l)))).1
  have hf : ∀ x ∈ collapseWS (stripDots (stripMarks (nfdL l))),
      isWS (lowerChar x) = isWS x := by
    intro x hx
    rcases collapse_mem _ _ _ hx with hsp | ⟨hxz, hxws⟩
    · subst hsp
      rw [show lowerChar ' ' = ' ' from by decide]
    · rcases List.mem_filter.mp hxz with ⟨hxm, hdot⟩
      rcases List.mem_filter.mp hxm with ⟨hxn, hcomb⟩
      rcases List.mem_flatMap.mp hxn with ⟨c0, _, hx0⟩
      have hst := lower_of_nfd_stable c0 x hx0 (by simpa using hcomb)
        (by simpa using hdot) hxws
      rw [hst.2, hxws]
  have hw : noTwoWS (lowerL (collapseWS (stripDots (stripMarks (nfdL l))))) = true :=
    noTwoWS_map _ _ hf hz
  exact noTwoWS_dropTrail _ (noTwoWS_dropWhile _ _ hw)

/-- One pass's output neither starts with whitespace nor changes under
another trailing-whitespace trim. -/
theorem normalizeChars_trimmed (l : List Char) :
    (∀ c, (normalizeChars l).head? = some c → isWS c = false) ∧
      dropTrailWS (normalizeChars l) = normalizeChars l := by
  constructor
  · intro c hc
    exact head_dropWhile isWS _ c (head_dropTrail _ _ hc)
  · exact dropTrail_idem _

/-- Claim C6: `normalizeName` (NFD-decompose, strip combining marks,
remove periods, collapse whitespace runs, lowercase, trim) is
idempotent: `normalize(normalize(s)) == normalize(s)` for every
string. -/
theorem c6_normalizeName_idempotent (s : String) :
    normalizeName (normalizeName s) = normalizeName s := by
  show (⟨normalizeChars (normalizeChars s.data)⟩ : String) = ⟨normalizeChars s.data⟩
  have hidem : ∀ l : List Char, normalizeChars (normalizeChars l) = normalizeChars l := by
    intro l
    have hchars := normalizeChars_chars l
    have hstable : ∀ c ∈ normalizeChars l, stableChar c = true :=
      fun c hc => (hchars c hc).1
    have hsp : ∀ c ∈ normalizeChars l, isWS c = true → c = ' ' :=
      fun c hc => (hchars c hc).2
    have hnfd : nfdL (normalizeChars l) = normalizeChars l := by
      refine nfdL_id _ (fun c hc => ?_)
      have := hstable c hc
      unfold stableChar at this
      simp only [Bool.and_eq_true] at this
      exact this.1.1.1
    have hmarks : stripMarks (normalizeChars l) = normalizeChars l := by
      refine filter_id_of _ _ (fun c hc => ?_)
      have := hstable c hc
      unfold stableChar at this
      simp only [Bool.and_eq_true] at this
      rw [this.1.1.2]
    have hdots : stripDots (normalizeChars l) = normalizeChars l := by
      refine filter_id_of _ _ (fun c hc => ?_)
      have := hstable c hc
      unfold stableChar at this
      simp only [Bool.and_eq_true] at this
      rw [this.1.2]
    have hcoll : collapseWS (normalizeChars l) = normalizeChars l :=
      (collapse_id _ hsp (normalizeChars_noTwoWS l)).1
    have hlower : lowerL (normalizeChars l) = normalizeChars l := by
      refine map_id_of _ _ (fun c hc => ?_)
      have := hstable c hc
      unfold stableChar at this
      simp only [Bool.and_eq_true, beq_iff_eq] at this
      exact this.2
    have htrim : trimL (normalizeChars l) = normalizeChars l := by
      unfold trimL
      rw [dropWhile_id_of_head isWS _ (normalizeChars_trimmed l).1]
      exact (normalizeChars_trimmed l).2
    show trimL (lowerL (collapseWS (stripDots (stripMarks (nfdL (normalizeChars l)))))) =
      normalizeChars l
    rw [hnfd, hmarks, hdots, hcoll, hlower, htrim]
  rw [hidem]

/-- Unfolding `foldWinner` over a cons cell. -/
theorem foldWinner_cons (f : Player → ℚ) (w p : Player) (t : List Player) :
    foldWinner f w (p :: t) = foldWinner f (pickMaxBy f w p) t := rfl

/-- The fold winner is the accumulator or one of the rows. -/
theorem foldWinner_mem (f : Player → ℚ) (w : Player) (t : List Player) :
    foldWinner f w t = w ∨ foldWinner f w t ∈ t := by
  induction t generalizing w with
  | nil => exact Or.inl rfl
  | cons p t ih =>
    rw [foldWinner_cons]
    rcases ih (pickMaxBy f w p) with h | h
    · rw [h]
      unfold pickMaxBy
      by_cases hlt : f w < f p
      · rw [if_pos hlt]
        exact Or.inr (List.mem_cons_self _ _)
      · rw [if_neg hlt]
        exact Or.inl rfl
    · exact Or.inr (List.mem_cons_of_mem _ h)

/-- The fold winner scores at least the accumulator. -/
theorem le_foldWinner_init (f : Player → ℚ) (w : Player) (t : List Player) :
    f w ≤ f (foldWinner f w t) := by
  induction t generalizing w with
  | nil => exact le_refl _
  | cons p t ih =>
    rw [foldWinner_cons]
    refine le_trans ?_ (ih (pickMaxBy f w p))
    unfold pickMaxBy
    by_cases hlt : f w < f p
    · rw [if_pos hlt]
      exact hlt.le
    · rw [if_neg hlt]

/-- The fold winner scores at least every row. -/
theorem le_foldWinner_mem (f : Player → ℚ) (w : Player) (t : List Player) :
    ∀ x ∈ t, f x ≤ f (foldWinner f w t) := by
  induction t generalizing w with
  | nil => intro x hx; simp at hx
  | cons p t ih =>
    intro x hx
    rw [foldWinner_cons]
    rcases List.mem_cons.mp hx with h | h
    · subst h
      refine le_trans ?_ (le_foldWinner_init f _ t)
      unfold pickMaxBy
      by_cases hlt : f w < f x
      · rw [if_pos hlt]
      · rw [if_neg hlt]
        exact le_of_not_lt hlt
    · exact ih _ x h

/-- The dedupe fold over rows that all share one nonempty key keeps a
single binding holding the running winner. -/
theorem dedupe_fold_single (f : Player → ℚ) (K : String) (hK : ¬ K = "") :
    ∀ (t : List Player) (w : Player), (∀ p ∈ t, jsTrim p.player_key = K) →
      (t.foldl (fun m p =>
          let key := jsTrim p.player_key
          if key = "" then m else insertKeyed (pickMaxBy f) m key p)
        [(K, w)]).map Prod.snd = [foldWinner f w t] := by
  intro t
  induction t with
  | nil => intro w _; rfl
  | cons p t ih =>
    intro w hall
    have hkey : jsTrim p.player_key = K := hall p (List.mem_cons_self _ _)
    rw [List.foldl_cons]
    have hstep : (let key := jsTrim p.player_key
        if key = "" then [(K, w)]
        else insertKeyed (pickMaxBy f) [(K, w)] key p) = [(K, pickMaxBy f w p)] := by
      rw [hkey]
      dsimp only
      rw [if_neg hK]
      unfold insertKeyed
      rw [if_pos rfl]
    rw [hstep, ih (pickMaxBy f w p) (fun q hq => hall q (List.mem_cons_of_mem _ hq)),
      foldWinner_cons]

/-- Dedupe of a nonempty single-key run is the singleton fold winner. -/
theorem dedupeKeyed_single (f : Player → ℚ) (h : Player) (t : List Player)
    (K : String) (hK : ¬ K = "") (hall : ∀ p ∈ h :: t, jsTrim p.player_key = K) :
    dedupeKeyed (pickMaxBy f) (h :: t) = [foldWinner f h t] := by
  unfold dedupeKeyed
  rw [List.foldl_cons]
  have hstep : (let key := jsTrim h.player_key
      if key = "" then ([] : List (String × Player))
      else insertKeyed (pickMaxBy f) [] key h) = [(K, h)] := by
    rw [hall h (List.mem_cons_self _ _)]
    dsimp only
    rw [if_neg hK]
    rfl
  rw [hstep]
  exact dedupe_fold_single f K hK t h (fun q hq => hall q (List.mem_cons_of_mem _ hq))

/-- Claim C4 (counterexample): two distinct rows with the same canonical
key and equal `scoreRow` values (no anchors at all) are deduped to
whichever row came first — the surviving record depends on the input
order, so the merge is not order-independent as claimed. -/
theorem c4_dedupe_order_dependent :
    jsTrim (Player.player_key { player_key := "hit|a", Team := "AAA" }) =
      jsTrim (Player.player_key { player_key := "hit|a", Team := "BBB" }) ∧
    AuctionData.scoreRow { player_key := "hit|a", Team := "AAA" } =
      AuctionData.scoreRow { player_key := "hit|a", Team := "BBB" } ∧
    AuctionData.dedupeAuction
        [{ player_key := "hit|a", Team := "AAA" }, { player_key := "hit|a", Team := "BBB" }] =
      [{ player_key := "hit|a", Team := "AAA" }] ∧
    AuctionData.dedupeAuction
        [{ player_key := "hit|a", Team := "BBB" }, { player_key := "hit|a", Team := "AAA" }] =
      [{ player_key := "hit|a", Team := "BBB" }] ∧
    ({ player_key := "hit|a", Team := "AAA" } : Player) ≠
      { player_key := "hit|a", Team := "BBB" } := by
  have hK : ¬ ("hit|a" : String) = "" := by decide
  have hall1 : ∀ p ∈ [({ player_key := "hit|a", Team := "AAA" } : Player),
      { player_key := "hit|a", Team := "BBB" }], jsTrim p.player_key = "hit|a" := by
    intro p hp
    rcases List.mem_cons.mp hp with h | h
    · subst h; decide
    · rcases List.mem_cons.mp h with h' | h'
      · subst h'; decide
      · simp at h'
  have hall2 : ∀ p ∈ [({ player_key := "hit|a", Team := "BBB" } : Player),
      { player_key := "hit|a", Team := "AAA" }], jsTrim p.player_key = "hit|a" := by
    intro p hp
    rcases List.mem_cons.mp hp with h | h
    · subst h; decide
    · rcases List.mem_cons.mp h with h' | h'
      · subst h'; decide
      · simp at h'
  have hwin : ∀ x y : Player, AuctionData.scoreRow x = AuctionData.scoreRow y →
      foldWinner AuctionData.scoreRow x [y] = x := by
    intro x y hxy
    show pickMaxBy AuctionData.scoreRow x y = x
    unfold pickMaxBy
    rw [if_neg]
    rw [hxy]
    exact lt_irrefl _
  refine ⟨rfl, rfl, ?_, ?_, by decide⟩
  · have h1 : AuctionData.dedupeAuction
        [{ player_key := "hit|a", Team := "AAA" }, { player_key := "hit|a", Team := "BBB" }] =
        [foldWinner AuctionData.scoreRow { player_key := "hit|a", Team := "AAA" }
          [{ player_key := "hit|a", Team := "BBB" }]] :=
      dedupeKeyed_single AuctionData.scoreRow _ _ "hit|a" hK hall1
    rw [h1, hwin { player_key := "hit|a", Team := "AAA" }
      { player_key := "hit|a", Team := "BBB" } rfl]
  · have h2 : AuctionData.dedupeAuction
        [{ player_key := "hit|a", Team := "BBB" }, { player_key := "hit|a", Team := "AAA" }] =
        [foldWinner AuctionData.scoreRow { player_key := "hit|a", Team := "BBB" }
          [{ player_key := "hit|a", Team := "AAA" }]] :=
      dedupeKeyed_single AuctionData.scoreRow _ _ "hit|a" hK hall2
    rw [h2, hwin { player_key := "hit|a", Team := "BBB" }
      { player_key := "hit|a", Team := "AAA" } rfl]

/-- Claim C4 (amended): for a fixed multiset of same-key rows the dedupe
keeps exactly one record — the row maximizing `scoreRow` (anchor value
dominant, then shadow price, accent, draftability) — and whenever the
scores separate the rows (as in the spec's anchor-0 vs anchor-45
example) that winner is the same for every input order; rows with equal
scores are resolved by input order. -/
theorem c4_dedupe_argmax_of_distinct_scores (l l' : List Player) (K : String)
    (hK : ¬ K = "") (hall : ∀ p ∈ l, jsTrim p.player_key = K)
    (hinj : ∀ a ∈ l, ∀ b ∈ l, AuctionData.scoreRow a = AuctionData.scoreRow b → a = b)
    (hperm : l.Perm l') (hne : l ≠ []) :
    ∃ w, AuctionData.dedupeAuction l = [w] ∧
      AuctionData.dedupeAuction l' = [w] ∧ w ∈ l ∧
      ∀ p ∈ l, AuctionData.scoreRow p ≤ AuctionData.scoreRow w := by
  have hpick : AuctionData.pickByScore = pickMaxBy AuctionData.scoreRow := rfl
  rcases l with _ | ⟨h, t⟩
  · exact absurd rfl hne
  rcases hl' : l' with _ | ⟨h', t'⟩
  · rw [hl'] at hperm
    exact absurd (List.Perm.eq_nil hperm) hne
  have hall' : ∀ p ∈ h' :: t', jsTrim p.player_key = K := by
    intro p hp
    exact hall p (hperm.mem_iff.mpr (hl' ▸ hp))
  set f := AuctionData.scoreRow
  have hd1 : AuctionData.dedupeAuction (h :: t) = [foldWinner f h t] := by
    unfold AuctionData.dedupeAuction
    rw [hpick]
    exact dedupeKeyed_single f h t K hK hall
  have hd2 : AuctionData.dedupeAuction (h' :: t') = [foldWinner f h' t'] := by
    unfold AuctionData.dedupeAuction
    rw [hpick]
    exact dedupeKeyed_single f h' t' K hK hall'
  set w1 := foldWinner f h t with hw1
  set w2 := foldWinner f h' t' with hw2
  have hmem1 : w1 ∈ h :: t := by
    rcases foldWinner_mem f h t with h1 | h1
    · rw [hw1, h1]; exact List.mem_cons_self _ _
    · exact List.mem_cons_of_mem _ h1
  have hmem2 : w2 ∈ h' :: t' := by
    rcases foldWinner_mem f h' t' with h1 | h1
    · rw [hw2, h1]; exact List.mem_cons_self _ _
    · exact List.mem_cons_of_mem _ h1
  have hmax1 : ∀ p ∈ h :: t, f p ≤ f w1 := by
    intro p hp
    rcases List.mem_cons.mp hp with h1 | h1
    · subst h1; exact le_foldWinner_init f p t
    · exact le_foldWinner_mem f h t p h1
  have hmax2 : ∀ p ∈ h' :: t', f p ≤ f w2 := by
    intro p hp
    rcases List.mem_cons.mp hp with h1 | h1
    · subst h1; exact le_foldWinner_init f p t'
    · exact le_foldWinner_mem f h' t' p h1
  have hmem2' : w2 ∈ h :: t := hperm.mem_iff.mpr (hl' ▸ hmem2)
  have heq : w2 = w1 := by
    refine hinj w2 hmem2' w1 hmem1 ?_
    have hle1 : f w1 ≤ f w2 := hmax2 w1 (hl' ▸ hperm.mem_iff.mp hmem1)
    have hle2 : f w2 ≤ f w1 := hmax1 w2 hmem2'
    exact le_antisymm hle2 hle1
  refine ⟨w1, hd1, ?_, hmem1, hmax1⟩
  rw [hd2, heq]

/-- Witness for the amended C4 at the spec's example: a same-key pair
with anchors 0 and 45 (and 2 vs 5 filled stats) is deduped to the same
single winner under both input orders. -/
theorem c4_dedupe_argmax_of_distinct_scores_witness :
    ∃ w, AuctionData.dedupeAuction
        [{ player_key := "hit|k", auction_value_26 := .cnum 0,
           stats := [("HR", .cnum 10), ("R", .cnum 50)] },
         { player_key := "hit|k", auction_value_26 := .cnum 45,
           stats := [("OPS", .cnum 1), ("TB", .cnum 300), ("HR", .cnum 40),
                     ("RBI", .cnum 120), ("R", .cnum 110)] }] = [w] ∧
      AuctionData.dedupeAuction
        [{ player_key := "hit|k", auction_value_26 := .cnum 45,
           stats := [("OPS", .cnum 1), ("TB", .cnum 300), ("HR", .cnum 40),
                     ("RBI", .cnum 120), ("R", .cnum 110)] },
         { player_key := "hit|k", auction_value_26 := .cnum 0,
           stats := [("HR", .cnum 10), ("R", .cnum 50)] }] = [w] := by
  have hsdia : hasDiacritics "" = false := by decide
  have hsdraft : (jsToUpper (jsString Cell.cnull "") = "TRUE") = False := by
    simp [jsString, jsToUpper]
  have hs0 : AuctionData.scoreRow
      { player_key := "hit|k", auction_value_26 := .cnum 0,
        stats := [("HR", .cnum 10), ("R", .cnum 50)] } = 0 := by
    unfold AuctionData.scoreRow
    norm_num [numD, hsdia, hsdraft]
  have hs45 : AuctionData.scoreRow
      { player_key := "hit|k", auction_value_26 := .cnum 45,
        stats := [("OPS", .cnum 1), ("TB", .cnum 300), ("HR", .cnum 40),
                  ("RBI", .cnum 120), ("R", .cnum 110)] } = 4500000 := by
    unfold AuctionData.scoreRow
    norm_num [numD, hsdia, hsdraft]
  have hall : ∀ p, p ∈ ([{ player_key := "hit|k", auction_value_26 := .cnum 0, stats := [("HR", .cnum 10), ("R", .cnum 50)] },
        { player_key := "hit|k", auction_value_26 := .cnum 45, stats := [("OPS", .cnum 1), ("TB", .cnum 300), ("HR", .cnum 40), ("RBI", .cnum 120), ("R", .cnum 110)] }] : List Player) →
      jsTrim p.player_key = "hit|k" := by
    intro p hp
    rcases List.mem_cons.mp hp with h | h
    · subst h; decide
    · rcases List.mem_cons.mp h with h' | h'
      · subst h'; decide
      · simp at h'
  have hinj : ∀ a, a ∈ ([{ player_key := "hit|k", auction_value_26 := .cnum 0, stats := [("HR", .cnum 10), ("R", .cnum 50)] },
        { player_key := "hit|k", auction_value_26 := .cnum 45, stats := [("OPS", .cnum 1), ("TB", .cnum 300), ("HR", .cnum 40), ("RBI", .cnum 120), ("R", .cnum 110)] }] : List Player) →
      ∀ b, b ∈ ([{ player_key := "hit|k", auction_value_26 := .cnum 0, stats := [("HR", .cnum 10), ("R", .cnum 50)] },
        { player_key := "hit|k", auction_value_26 := .cnum 45, stats := [("OPS", .cnum 1), ("TB", .cnum 300), ("HR", .cnum 40), ("RBI", .cnum 120), ("R", .cnum 110)] }] : List Player) →
        AuctionData.scoreRow a = AuctionData.scoreRow b → a = b := by
    intro a ha b hb hab
    rcases List.mem_cons.mp ha with h | h
    · rcases List.mem_cons.mp hb with h' | h'
      · rw [h, h']
      · rcases List.mem_cons.mp h' with h'' | h''
        · subst h; subst h''
          rw [hs0, hs45] at hab
          norm_num at hab
        · simp at h''
    · rcases List.mem_cons.mp h with h2 | h2
      · rcases List.mem_cons.mp hb with h' | h'
        · subst h2; subst h'
          rw [hs45, hs0] at hab
          norm_num at hab
        · rcases List.mem_cons.mp h' with h'' | h''
          · rw [h2, h'']
          · simp at h''
      · simp at h2
  obtain ⟨w, h1, h2, _, _⟩ := c4_dedupe_argmax_of_distinct_scores _ _
    "hit|k" (by decide) hall hinj (List.Perm.swap _ _ _) (by simp)
  exact ⟨w, h1, h2⟩

/-- Claim C10: two source rows with no explicit identifier, an empty
display name and the same resolved role get the identical canonical key
— the role prefix followed by the empty normalized name — and the
projections dedupe collapses every run of rows sharing such a (nonempty)
key into exactly one record instead of rejecting them. -/
theorem c10_unnamed_rows_collapse
    (i j : PlayerKey.KeyInput)
    (hi : PlayerKey.idResolved i = none) (hj : PlayerKey.idResolved j = none)
    (hni : PlayerKey.nameResolved i = "") (hnj : PlayerKey.nameResolved j = "")
    (ht : PlayerKey.typeResolved i = PlayerKey.typeResolved j)
    (h : Player) (t : List Player) (K : String) (hK : ¬ K = "")
    (hall : ∀ p ∈ h :: t, jsTrim p.player_key = K) :
    PlayerKey.getPlayerKey (.objArg i) = PlayerKey.getPlayerKey (.objArg j) ∧
    PlayerKey.getPlayerKey (.objArg i) = PlayerKey.typeResolved i ++ "|" ∧
    (ProjectionsData.dedupeByPlayerKey (h :: t)).length = 1 := by
  have hkey : PlayerKey.getPlayerKey (.objArg i) = PlayerKey.typeResolved i ++ "|" := by
    unfold PlayerKey.getPlayerKey
    dsimp only
    rw [hi, hni]
    rw [show normalizeName "" = "" from rfl]
    simp
  have hkeyj : PlayerKey.getPlayerKey (.objArg j) = PlayerKey.typeResolved j ++ "|" := by
    unfold PlayerKey.getPlayerKey
    dsimp only
    rw [hj, hnj]
    rw [show normalizeName "" = "" from rfl]
    simp
  refine ⟨?_, hkey, ?_⟩
  · rw [hkey, hkeyj, ht]
  · have hd : ProjectionsData.dedupeByPlayerKey (h :: t) =
        [foldWinner ProjectionsData.filledCount h t] := by
      unfold ProjectionsData.dedupeByPlayerKey
      exact dedupeKeyed_single ProjectionsData.filledCount h t K hK hall
    rw [hd]
    rfl

/-- Witness for C10: rows typed "hit" and "hitter" with no name and no
id share the key "hit|", and two such rows dedupe to one record. -/
theorem c10_unnamed_rows_collapse_witness :
    PlayerKey.getPlayerKey (.objArg { typeL := .cstr "hit" }) =
      PlayerKey.getPlayerKey (.objArg { typeL := .cstr "hitter" }) ∧
    PlayerKey.getPlayerKey (.objArg { typeL := .cstr "hit" }) = "hit" ++ "|" ∧
    (ProjectionsData.dedupeByPlayerKey
        [{ player_key := "hit|" }, { player_key := "hit|", Team := "X" }]).length = 1 := by
  have h := c10_unnamed_rows_collapse
    { typeL := .cstr "hit" } { typeL := .cstr "hitter" }
    rfl rfl (by decide) (by decide) (by decide)
    { player_key := "hit|" } [{ player_key := "hit|", Team := "X" }]
    "hit|" (by decide) ?_
  · refine ⟨h.1, ?_, h.2.2⟩
    have h2 := h.2.1
    rwa [show PlayerKey.typeResolved { typeL := .cstr "hit" } = "hit" from by decide] at h2
  · intro p hp
    rcases List.mem_cons.mp hp with hh | hh
    · subst hh; decide
    · rcases List.mem_cons.mp hh with hh' | hh'
      · subst hh'; decide
      · simp at hh'

namespace RecTargets

/-- Helper: folding `min` over copies of the accumulator is the
accumulator. -/
theorem foldl_min_all_eq (a : ℚ) (t : List ℚ) (h : ∀ x ∈ t, x = a) :
    t.foldl min a = a := by
  induction t with
  | nil => rfl
  | cons x t ih =>
    rw [List.foldl_cons, h x (List.mem_cons_self _ _), min_self]
    exact ih (fun y hy => h y (List.mem_cons_of_mem _ hy))

/-- Helper: folding `max` over copies of the accumulator is the
accumulator. -/
theorem foldl_max_all_eq (a : ℚ) (t : List ℚ) (h : ∀ x ∈ t, x = a) :
    t.foldl max a = a := by
  induction t with
  | nil => rfl
  | cons x t ih =>
    rw [List.foldl_cons, h x (List.mem_cons_self _ _), max_self]
    exact ih (fun y hy => h y (List.mem_cons_of_mem _ hy))

/-- Helper: on an all-equal list the pool minimum and maximum agree. -/
theorem minOfL_eq_maxOfL (l : List ℚ) (h : ∀ x ∈ l, ∀ y ∈ l, x = y) :
    minOfL l = maxOfL l := by
  cases l with
  | nil => rfl
  | cons a t =>
    have ha : ∀ x ∈ t, x = a := fun x hx =>
      h x (List.mem_cons_of_mem _ hx) a (List.mem_cons_self _ _)
    unfold minOfL maxOfL
    dsimp only
    rw [foldl_min_all_eq a t ha, foldl_max_all_eq a t ha]

/-- Helper: with the affordability filter off, the `fitRaws` array is
exactly the surviving rows' `fitRaw` column. -/
theorem passOne_fits_of_no_filter (valueMode : String) (opts : ScoreOpts)
    (weights : List (String × ℚ)) (rosterIds targetKeys : List String)
    (emptySlots : List String) (livePrices : List (String × Cell))
    (hasCatStats : Bool) (haff : opts.affordableOnly = false) :
    ∀ ps, (passOne valueMode opts weights rosterIds targetKeys emptySlots
        livePrices hasCatStats ps).2 =
      ((passOne valueMode opts weights rosterIds targetKeys emptySlots
        livePrices hasCatStats ps).1).map ScoredRow.fitRaw := by
  intro ps
  induction ps with
  | nil => rfl
  | cons p rest ih =>
    unfold passOne
    rw [haff]
    dsimp only
    by_cases h1 : getStablePlayerKey p = ""
    · rw [if_pos h1]; exact ih
    · rw [if_neg h1]
      by_cases h2 : rosterIds.contains (getStablePlayerKey p)
      · rw [if_pos h2]; exact ih
      · rw [if_neg h2]
        by_cases h3 : targetKeys.contains (getStablePlayerKey p)
        · rw [if_pos h3]; exact ih
        · rw [if_neg h3]
          simp only [Bool.false_and, Bool.false_eq_true, if_false, List.map_cons]
          rw [ih]

end RecTargets

/-- Claim C8 (amended): the min–max band for `fitNorm` is computed over
the `fitRaws` of every scanned candidate — including candidates later
dropped by the affordability filter.  When all those values are equal,
every surviving candidate gets `fitNorm = 0` (the `denom > 0` guard, no
division by zero); and with the affordability filter off the scanned
values are exactly the surviving rows' `fitRaw`s, giving the spec's
original claim for all-equal surviving sets. -/
theorem c8_fitnorm_zero_on_all_equal_pool (players : List Player)
    (valueMode : String) (opts : RecTargets.ScoreOpts)
    (weights : List (String × ℚ)) (roster targets : List String)
    (emptySlots : List String) (livePrices : List (String × Cell)) :
    ((∀ x ∈ (RecTargets.passOne valueMode opts weights (RecTargets.keySet roster)
          (RecTargets.keySet targets) emptySlots livePrices
          ((players.take 200).any (fun p => AuctionData.detectCatStats (some p)))
          players).2,
        ∀ y ∈ (RecTargets.passOne valueMode opts weights (RecTargets.keySet roster)
          (RecTargets.keySet targets) emptySlots livePrices
          ((players.take 200).any (fun p => AuctionData.detectCatStats (some p)))
          players).2, x = y) →
      ∀ r ∈ (RecTargets.scorePlayers players valueMode opts weights roster targets
          emptySlots livePrices).scored, r.fitVal = 0) ∧
    (opts.affordableOnly = false →
      (RecTargets.passOne valueMode opts weights (RecTargets.keySet roster)
          (RecTargets.keySet targets) emptySlots livePrices
          ((players.take 200).any (fun p => AuctionData.detectCatStats (some p)))
          players).2 =
        ((RecTargets.passOne valueMode opts weights (RecTargets.keySet roster)
          (RecTargets.keySet targets) emptySlots livePrices
          ((players.take 200).any (fun p => AuctionData.detectCatStats (some p)))
          players).1).map RecTargets.ScoredRow.fitRaw) := by
  constructor
  · intro hall r hr
    unfold RecTargets.scorePlayers at hr
    rw [List.mem_mergeSort] at hr
    rcases List.mem_map.mp hr with ⟨r0, _, hr0⟩
    have hmm := RecTargets.minOfL_eq_maxOfL _ hall
    subst hr0
    dsimp only
    rw [if_neg]
    rw [hmm]
    simp
  · intro haff
    exact RecTargets.passOne_fits_of_no_filter valueMode opts weights _ _
      emptySlots livePrices _ haff players

/-- Claim C8 (counterexample): with the affordability filter active, a
pool of two hitters — one with `fitRaw = 5` surviving, one with
`fitRaw = 0` dropped for its price — leaves a one-candidate surviving
set (all of whose `fitRaw` values are trivially equal), yet that
candidate's `fitNorm` is 100, not 0: the min–max band was taken over the
dropped candidate too. -/
theorem c8_fitnorm_counterexample :
    ((RecTargets.scorePlayers [{ player_key := "hit|a", type := "hit", market_estimate := .cnum 1, stats := [("OPS", .cnum 5), ("HR", .cnum 0)] }, { player_key := "hit|b", type := "hit", market_estimate := .cnum 100 }] "proj"
        { affordableOnly := true, maxPrice := .cnum 10 }
        [("OPS", (1 : ℚ)), ("HR", 1)] [] [] [] []).scored.map
      RecTargets.ScoredRow.fitVal) = [100] ∧ ((100 : ℚ) ≠ 0) := by
  have hfsA : RecTargets.fitScores { player_key := "hit|a", type := "hit", market_estimate := .cnum 1, stats := [("OPS", .cnum 5), ("HR", .cnum 0)] } [("OPS", (1 : ℚ)), ("HR", 1)] ["OPS", "TB", "HR", "RBI", "R", "AVG", "SB"] = (5, true) := by
    simp only [RecTargets.fitScores, List.lookup,
      (by decide : AuctionData.getCatStat (some { player_key := "hit|a", type := "hit", market_estimate := .cnum 1, stats := [("OPS", .cnum 5), ("HR", .cnum 0)] }) "OPS" = some 5),
      (by decide : AuctionData.getCatStat (some { player_key := "hit|a", type := "hit", market_estimate := .cnum 1, stats := [("OPS", .cnum 5), ("HR", .cnum 0)] }) "HR" = some 0),
      (by decide : ("OPS" == "OPS") = true),
      (by decide : ("TB" == "OPS") = false),
      (by decide : ("TB" == "HR") = false),
      (by decide : ("HR" == "OPS") = false),
      (by decide : ("HR" == "HR") = true),
      (by decide : ("RBI" == "OPS") = false),
      (by decide : ("RBI" == "HR") = false),
      (by decide : ("R" == "OPS") = false),
      (by decide : ("R" == "HR") = false),
      (by decide : ("AVG" == "OPS") = false),
      (by decide : ("AVG" == "HR") = false),
      (by decide : ("SB" == "OPS") = false),
      (by decide : ("SB" == "HR") = false)]
    norm_num
  have hfsB : RecTargets.fitScores { player_key := "hit|b", type := "hit", market_estimate := .cnum 100 } [("OPS", (1 : ℚ)), ("HR", 1)] ["OPS", "TB", "HR", "RBI", "R", "AVG", "SB"] = (0, false) := by
    simp only [RecTargets.fitScores, List.lookup,
      (by decide : AuctionData.getCatStat (some { player_key := "hit|b", type := "hit", market_estimate := .cnum 100 }) "OPS" = none),
      (by decide : AuctionData.getCatStat (some { player_key := "hit|b", type := "hit", market_estimate := .cnum 100 }) "HR" = none),
      (by decide : ("OPS" == "OPS") = true),
      (by decide : ("TB" == "OPS") = false),
      (by decide : ("TB" == "HR") = false),
      (by decide : ("HR" == "OPS") = false),
      (by decide : ("HR" == "HR") = true),
      (by decide : ("RBI" == "OPS") = false),
      (by decide : ("RBI" == "HR") = false),
      (by decide : ("R" == "OPS") = false),
      (by decide : ("R" == "HR") = false),
      (by decide : ("AVG" == "OPS") = false),
      (by decide : ("AVG" == "HR") = false),
      (by decide : ("SB" == "OPS") = false),
      (by decide : ("SB" == "HR") = false)]
    norm_num
  have hfitA : RecTargets.computeFitRaw { player_key := "hit|a", type := "hit", market_estimate := .cnum 1, stats := [("OPS", .cnum 5), ("HR", .cnum 0)] } [("OPS", (1 : ℚ)), ("HR", 1)] true = 5 := by
    unfold RecTargets.computeFitRaw
    norm_num [(by decide : RecTargets.normType "hit" = "hit"), RecTargets.HIT_CATS, hfsA,
      (by decide : (("hit" : String) = "pit") = False)]
  have hfitB : RecTargets.computeFitRaw { player_key := "hit|b", type := "hit", market_estimate := .cnum 100 } [("OPS", (1 : ℚ)), ("HR", 1)] true = 0 := by
    unfold RecTargets.computeFitRaw
    norm_num [(by decide : RecTargets.normType "hit" = "hit"), RecTargets.HIT_CATS, hfsB,
      (by decide : (("hit" : String) = "pit") = False)]
  have hbaseA : AuctionData.getBaselineVal (some { player_key := "hit|a", type := "hit", market_estimate := .cnum 1, stats := [("OPS", .cnum 5), ("HR", .cnum 0)] }) "proj" = 0 := by
    rw [AuctionData.getBaselineVal_proj]
    rfl
  have hbaseB : AuctionData.getBaselineVal (some { player_key := "hit|b", type := "hit", market_estimate := .cnum 100 }) "proj" = 0 := by
    rw [AuctionData.getBaselineVal_proj]
    rfl
  have hprA : RecTargets.priceOf [] "hit|a" { player_key := "hit|a", type := "hit", market_estimate := .cnum 1, stats := [("OPS", .cnum 5), ("HR", .cnum 0)] } = 1 := by
    unfold RecTargets.priceOf RecTargets.pickFallbackPrice
    norm_num [AuctionData.getMarketEstimate, AuctionData.fieldOf, numOpt, List.lookup]
  have hprB : RecTargets.priceOf [] "hit|b" { player_key := "hit|b", type := "hit", market_estimate := .cnum 100 } = 100 := by
    unfold RecTargets.priceOf RecTargets.pickFallbackPrice
    norm_num [AuctionData.getMarketEstimate, AuctionData.fieldOf, numOpt, List.lookup]
  have hkA : RecTargets.getStablePlayerKey { player_key := "hit|a", type := "hit", market_estimate := .cnum 1, stats := [("OPS", .cnum 5), ("HR", .cnum 0)] } = "hit|a" := by
    unfold RecTargets.getStablePlayerKey
    rw [if_neg (by decide : ¬ ("hit|a" : String) = "")]
  have hkB : RecTargets.getStablePlayerKey { player_key := "hit|b", type := "hit", market_estimate := .cnum 100 } = "hit|b" := by
    unfold RecTargets.getStablePlayerKey
    rw [if_neg (by decide : ¬ ("hit|b" : String) = "")]
  have hcs : (([{ player_key := "hit|a", type := "hit", market_estimate := .cnum 1, stats := [("OPS", .cnum 5), ("HR", .cnum 0)] }, { player_key := "hit|b", type := "hit", market_estimate := .cnum 100 }] : List Player).take 200).any
      (fun p => AuctionData.detectCatStats (some p)) = true := by decide
  have hpass : RecTargets.passOne "proj" { affordableOnly := true, maxPrice := .cnum 10 }
      [("OPS", (1 : ℚ)), ("HR", 1)] [] [] [] [] true [{ player_key := "hit|a", type := "hit", market_estimate := .cnum 1, stats := [("OPS", .cnum 5), ("HR", .cnum 0)] }, { player_key := "hit|b", type := "hit", market_estimate := .cnum 100 }] =
      ([{ key := "hit|a", player := { player_key := "hit|a", type := "hit", market_estimate := .cnum 1, stats := [("OPS", .cnum 5), ("HR", .cnum 0)] }, baseVal := 0, fitRaw := 5, price := 1, valueEdge := -1, needBoost := 0 }], [5, 0]) := by
    simp only [RecTargets.passOne]
    norm_num [hkA, hkB, hfitA, hfitB, hbaseA, hbaseB, hprA, hprB,
      RecTargets.needBoostForPlayer, clamp, numOpt,
      (by decide : (("hit|a" : String) = "") = False),
      (by decide : (("hit|b" : String) = "") = False)]
  refine ⟨?_, by norm_num⟩
  unfold RecTargets.scorePlayers
  rw [show RecTargets.keySet [] = [] from rfl, hcs]
  dsimp only
  rw [hpass]
  norm_num [RecTargets.minOfL, RecTargets.maxOfL, List.foldl, min_def, max_def,
    List.mergeSort_singleton]

/-- Witness for the amended C8 at a one-row pool with no stat columns:
the scanned `fitRaws` are all equal, so every surviving row gets
`fitVal = 0`. -/
theorem c8_fitnorm_zero_on_all_equal_pool_witness :
    ∀ r ∈ (RecTargets.scorePlayers [{ player_key := "hit|c" }] "proj" {} [] [] [] [] []).scored,
      r.fitVal = 0 := by
  have hcs : (([{ player_key := "hit|c" }] : List Player).take 200).any
      (fun p => AuctionData.detectCatStats (some p)) = false := by decide
  have hpass : RecTargets.passOne "proj" {} [] [] [] [] [] false [{ player_key := "hit|c" }] =
      ([{ key := "hit|c", player := { player_key := "hit|c" }, baseVal := 0, fitRaw := 0,
           price := 0, valueEdge := 0, needBoost := 0 }], [0]) := by
    simp only [RecTargets.passOne]
    norm_num [RecTargets.getStablePlayerKey, RecTargets.computeFitRaw, RecTargets.priceOf,
      RecTargets.pickFallbackPrice, RecTargets.needBoostForPlayer,
      AuctionData.getBaselineVal_proj, AuctionData.getBaseVal26, AuctionData.getVal26,
      AuctionData.getShadow25, AuctionData.getMarketEstimate, AuctionData.fieldOf,
      numOpt, clamp, List.lookup,
      (by decide : (("hit|c" : String) = "") = False)]
  have hfits : (RecTargets.passOne "proj" {} [] (RecTargets.keySet [])
      (RecTargets.keySet []) [] []
      ((([{ player_key := "hit|c" }] : List Player).take 200).any
        (fun p => AuctionData.detectCatStats (some p)))
      [{ player_key := "hit|c" }]).2 = [0] := by
    rw [show RecTargets.keySet [] = [] from rfl, hcs, hpass]
  have hall : ∀ x ∈ (RecTargets.passOne "proj" {} [] (RecTargets.keySet [])
      (RecTargets.keySet []) [] []
      ((([{ player_key := "hit|c" }] : List Player).take 200).any
        (fun p => AuctionData.detectCatStats (some p)))
      [{ player_key := "hit|c" }]).2,
      ∀ y ∈ (RecTargets.passOne "proj" {} [] (RecTargets.keySet [])
        (RecTargets.keySet []) [] []
        ((([{ player_key := "hit|c" }] : List Player).take 200).any
          (fun p => AuctionData.detectCatStats (some p)))
        [{ player_key := "hit|c" }]).2, x = y := by
    intro x hx y hy
    rw [hfits] at hx hy
    simp only [List.mem_singleton] at hx hy
    rw [hx, hy]
  exact (c8_fitnorm_zero_on_all_equal_pool [{ player_key := "hit|c" }] "proj" {} [] [] [] [] []).1 hall

namespace RecTargets

/-- Helper: the stable key is never empty — a present `player_key` is
nonempty by the guard, and the rebuilt fallback key always contains the
`"|"` separator. -/
theorem getStablePlayerKey_ne_empty (p : Player) : getStablePlayerKey p ≠ "" := by
  unfold getStablePlayerKey
  dsimp only
  by_cases h : p.player_key = ""
  · rw [if_pos h]
    show PlayerKey.typeResolved
        { typeL := .cstr (normType p.type), nameU := .cstr (jsTrim p.Name) } ++ "|" ++
      normalizeName (PlayerKey.nameResolved
        { typeL := .cstr (normType p.type), nameU := .cstr (jsTrim p.Name) }) ≠ ""
    intro hEq
    have hlen := congrArg String.length hEq
    rw [String.length_append, String.length_append] at hlen
    have h1 : ("|" : String).length = 1 := rfl
    have h0 : ("" : String).length = 0 := rfl
    omega
  · rw [if_neg h]
    exact h

/-- Helper: membership in the first component of an if-pair where the
false branch conses one extra row. -/
theorem mem_ite_pair_fst {c : Prop} [Decidable c] {a r : ScoredRow}
    {rows : List ScoredRow} {x y : List ℚ}
    (h : r ∈ (if c then (rows, x) else (a :: rows, y)).1) : r = a ∨ r ∈ rows := by
  split at h
  · exact Or.inr h
  · exact List.mem_cons.mp h

/-- Helper (soundness): every row produced by the candidate loop comes
from a pool member whose stable key is in neither exclusion set. -/
theorem passOne_mem_sound (valueMode : String) (opts : ScoreOpts)
    (weights : List (String × ℚ)) (rosterIds targetKeys : List String)
    (emptySlots : List String) (livePrices : List (String × Cell))
    (hasCatStats : Bool) :
    ∀ (ps : List Player) (r : ScoredRow),
      r ∈ (passOne valueMode opts weights rosterIds targetKeys emptySlots
        livePrices hasCatStats ps).1 →
      ∃ p ∈ ps, r.player = p ∧ r.key = getStablePlayerKey p ∧
        rosterIds.contains (getStablePlayerKey p) = false ∧
        targetKeys.contains (getStablePlayerKey p) = false := by
  intro ps
  induction ps with
  | nil => intro r hr; simp [passOne] at hr
  | cons p rest ih =>
    intro r hr
    unfold passOne at hr
    dsimp only at hr
    by_cases h1 : getStablePlayerKey p = ""
    · rw [if_pos h1] at hr
      obtain ⟨q, hq, hrest⟩ := ih r hr
      exact ⟨q, List.mem_cons_of_mem _ hq, hrest⟩
    · rw [if_neg h1] at hr
      by_cases h2 : rosterIds.contains (getStablePlayerKey p)
      · rw [if_pos h2] at hr
        obtain ⟨q, hq, hrest⟩ := ih r hr
        exact ⟨q, List.mem_cons_of_mem _ hq, hrest⟩
      · rw [if_neg h2] at hr
        by_cases h3 : targetKeys.contains (getStablePlayerKey p)
        · rw [if_pos h3] at hr
          obtain ⟨q, hq, hrest⟩ := ih r hr
          exact ⟨q, List.mem_cons_of_mem _ hq, hrest⟩
        · rw [if_neg h3] at hr
          rcases mem_ite_pair_fst hr with hEq | hmem
          · exact ⟨p, List.mem_cons_self _ _, by rw [hEq], by rw [hEq],
              by simpa using h2, by simpa using h3⟩
          · obtain ⟨q, hq, hrest⟩ := ih r hmem
            exact ⟨q, List.mem_cons_of_mem _ hq, hrest⟩

/-- Helper (completeness): with the affordability filter off, every pool
member whose stable key is in neither exclusion set yields a row. -/
theorem passOne_mem_complete (valueMode : String) (opts : ScoreOpts)
    (weights : List (String × ℚ)) (rosterIds targetKeys : List String)
    (emptySlots : List String) (livePrices : List (String × Cell))
    (hasCatStats : Bool) (haff : opts.affordableOnly = false) :
    ∀ (ps : List Player) (p : Player), p ∈ ps →
      ¬ rosterIds.contains (getStablePlayerKey p) = true →
      ¬ targetKeys.contains (getStablePlayerKey p) = true →
      ∃ r ∈ (passOne valueMode opts weights rosterIds targetKeys emptySlots
        livePrices hasCatStats ps).1, r.player = p := by
  intro ps
  induction ps with
  | nil => intro p hp; exact absurd hp (List.not_mem_nil p)
  | cons q rest ih =>
    intro p hp hro hta
    unfold passOne
    rw [haff]
    dsimp only
    rcases List.mem_cons.mp hp with hEq | hmem
    · subst hEq
      rw [if_neg (getStablePlayerKey_ne_empty p), if_neg hro, if_neg hta]
      simp only [Bool.false_and, Bool.false_eq_true, if_false]
      exact ⟨_, List.mem_cons_self _ _, rfl⟩
    · obtain ⟨r, hr, hrp⟩ := ih p hmem hro hta
      by_cases h1 : getStablePlayerKey q = ""
      · rw [if_pos h1]
        exact ⟨r, hr, hrp⟩
      · rw [if_neg h1]
        by_cases h2 : rosterIds.contains (getStablePlayerKey q)
        · rw [if_pos h2]
          exact ⟨r, hr, hrp⟩
        · rw [if_neg h2]
          by_cases h3 : targetKeys.contains (getStablePlayerKey q)
          · rw [if_pos h3]
            exact ⟨r, hr, hrp⟩
          · rw [if_neg h3]
            simp only [Bool.false_and, Bool.false_eq_true, if_false]
            exact ⟨r, List.mem_cons_of_mem _ hr, hrp⟩

/-- Helper: a scored-output row is the normalization image of a loop row
with the same player and key. -/
theorem scorePlayers_scored_of_row (players : List Player) (valueMode : String)
    (opts : ScoreOpts) (weights : List (String × ℚ))
    (roster targets : List String) (emptySlots : List String)
    (livePrices : List (String × Cell)) :
    ∀ r ∈ (scorePlayers players valueMode opts weights roster targets
        emptySlots livePrices).scored,
      ∃ r0 ∈ (passOne valueMode opts weights (keySet roster) (keySet targets)
        emptySlots livePrices
        ((players.take 200).any (fun p => AuctionData.detectCatStats (some p)))
        players).1, r.player = r0.player ∧ r.key = r0.key := by
  intro r hr
  unfold scorePlayers at hr
  dsimp only at hr
  rw [List.mem_mergeSort] at hr
  rcases List.mem_map.mp hr with ⟨r0, hr0, hfr⟩
  exact ⟨r0, hr0, by rw [← hfr], by rw [← hfr]⟩

/-- Helper: every loop row survives (normalized) into the scored output. -/
theorem scorePlayers_row_to_scored (players : List Player) (valueMode : String)
    (opts : ScoreOpts) (weights : List (String × ℚ))
    (roster targets : List String) (emptySlots : List String)
    (livePrices : List (String × Cell)) :
    ∀ r0 ∈ (passOne valueMode opts weights (keySet roster) (keySet targets)
        emptySlots livePrices
        ((players.take 200).any (fun p => AuctionData.detectCatStats (some p)))
        players).1,
      ∃ r ∈ (scorePlayers players valueMode opts weights roster targets
        emptySlots livePrices).scored, r.player = r0.player := by
  intro r0 hr0
  unfold scorePlayers
  dsimp only
  exact ⟨_, List.mem_mergeSort.mpr (List.mem_map.mpr ⟨r0, hr0, rfl⟩), rfl⟩

end RecTargets

/-- Claim C3: the candidate loop excludes exactly the candidates whose
stable key is in the caller's (trimmed, emptiness-filtered) roster-id
set or already-targeted key set: with the optional affordability filter
off, a pool member appears in the scored output iff its key is in
neither set (the loop's empty-key skip is dead code, the stable key
being always nonempty); and — for any options — no output row's key is
in the roster or target set, so a rostered player never appears. -/
theorem c3_exclusion_exact (players : List Player) (valueMode : String)
    (opts : RecTargets.ScoreOpts) (weights : List (String × ℚ))
    (roster targets : List String) (emptySlots : List String)
    (livePrices : List (String × Cell)) :
    (opts.affordableOnly = false →
      ∀ p ∈ players,
        ((∃ r ∈ (RecTargets.scorePlayers players valueMode opts weights roster
            targets emptySlots livePrices).scored, r.player = p) ↔
          ((RecTargets.keySet roster).contains (RecTargets.getStablePlayerKey p) = false ∧
           (RecTargets.keySet targets).contains (RecTargets.getStablePlayerKey p) = false))) ∧
    (∀ r ∈ (RecTargets.scorePlayers players valueMode opts weights roster
        targets emptySlots livePrices).scored,
      (RecTargets.keySet roster).contains r.key = false ∧
      (RecTargets.keySet targets).contains r.key = false) := by
  constructor
  · intro haff p hp
    constructor
    · rintro ⟨r, hr, hrp⟩
      obtain ⟨r0, hr0, hpl, _⟩ := RecTargets.scorePlayers_scored_of_row players
        valueMode opts weights roster targets emptySlots livePrices r hr
      obtain ⟨q, _, hqp, _, hqro, hqta⟩ := RecTargets.passOne_mem_sound valueMode
        opts weights (RecTargets.keySet roster) (RecTargets.keySet targets)
        emptySlots livePrices _ players r0 hr0
      have hqeq : q = p := by rw [← hqp, ← hpl, hrp]
      rw [← hqeq]
      exact ⟨hqro, hqta⟩
    · rintro ⟨hro, hta⟩
      obtain ⟨r0, hr0, hrp⟩ := RecTargets.passOne_mem_complete valueMode opts
        weights (RecTargets.keySet roster) (RecTargets.keySet targets) emptySlots
        livePrices _ haff players p hp
        (by rw [hro]; exact Bool.false_ne_true) (by rw [hta]; exact Bool.false_ne_true)
      obtain ⟨r, hr, hrp2⟩ := RecTargets.scorePlayers_row_to_scored players
        valueMode opts weights roster targets emptySlots livePrices r0 hr0
      exact ⟨r, hr, by rw [hrp2, hrp]⟩
  · intro r hr
    obtain ⟨r0, hr0, _, hke⟩ := RecTargets.scorePlayers_scored_of_row players
      valueMode opts weights roster targets emptySlots livePrices r hr
    obtain ⟨q, _, _, hqk, hqro, hqta⟩ := RecTargets.passOne_mem_sound valueMode
      opts weights (RecTargets.keySet roster) (RecTargets.keySet targets)
      emptySlots livePrices _ players r0 hr0
    rw [hke, hqk]
    exact ⟨hqro, hqta⟩

/-- Witness for C3: in a two-hitter pool with `"hit|b"` on the roster,
the scored output contains the unrostered hitter and not the rostered
one. -/
theorem c3_exclusion_exact_witness :
    (∃ r ∈ (RecTargets.scorePlayers
        [{ player_key := "hit|a" }, { player_key := "hit|b" }] "proj" {} []
        ["hit|b"] [] [] []).scored, r.player = { player_key := "hit|a" }) ∧
    ¬ (∃ r ∈ (RecTargets.scorePlayers
        [{ player_key := "hit|a" }, { player_key := "hit|b" }] "proj" {} []
        ["hit|b"] [] [] []).scored, r.player = { player_key := "hit|b" }) := by
  have h := c3_exclusion_exact
    [{ player_key := "hit|a" }, { player_key := "hit|b" }] "proj" {} []
    ["hit|b"] [] [] []
  constructor
  · exact (h.1 rfl { player_key := "hit|a" } (by simp)).mpr ⟨by decide, by decide⟩
  · intro hex
    have hc := ((h.1 rfl { player_key := "hit|b" } (by simp)).mp hex).1
    exact absurd hc (by decide)
